import Mathlib

/-!
# QskMetaInvokable: invocable identities and the meta call dispatcher

A shallow embedding of `src/common/QskMetaInvokable.cpp`, and of
`qskEffectiveSizeHint` of `src/controls/QskQuick.cpp`.

* Pointers to descriptors (`const QMetaObject*`) and to callable records
  (`FunctionCall*`) are `Option Nat`: `none` is `nullptr`, `some a` is the
  address `a`.  Pointer comparison is comparison of addresses.
* C++ `int` is `Int`; `ushort` is a `Nat` obtained through `toUShort`,
  which reduces modulo `2 ^ 16` as the conversion `int -> ushort` does.
* Calls that leave the translation unit (the static member mechanism of a
  descriptor, `QCoreApplication::postEvent`, `QSemaphore::acquire`,
  `QskMetaFunction::invoke`, `delete event`) are recorded, in program
  order, in a list of `Effect`s returned by the embedded function.
* The build modelled is the one with `QT_CONFIG(thread)` and with
  `Q_ASSERT` compiled out.
-/

namespace Qsk

/-! ## Qt side: type ids, descriptors, objects -/

/-- Values of `QMetaType::Type` that the source names. -/
def QMetaType.UnknownType : Int := 0

/-- The id of `void` in `QMetaType::Type`. -/
def QMetaType.Void : Int := 43

/-- Values of `Qt::ConnectionType`. -/
def Qt.AutoConnection : Nat := 0

/-- Value `Qt::DirectConnection`. -/
def Qt.DirectConnection : Nat := 1

/-- Value `Qt::QueuedConnection`. -/
def Qt.QueuedConnection : Nat := 2

/-- Value `Qt::BlockingQueuedConnection`. -/
def Qt.BlockingQueuedConnection : Nat := 3

/-- The two values of `QMetaObject::Call` the source uses. -/
inductive Call where
  | InvokeMetaMethod
  | WriteProperty
  deriving DecidableEq, Repr

/-- A `void*` seen by the dispatcher: null, a value owned by the caller, or
the result of `QMetaType::create( type, copy )`, kept symbolic. -/
inductive VoidPtr where
  | null
  | caller (address : Nat)
  | created (type : Int) (copy : VoidPtr)
  deriving DecidableEq, Repr

/-- Values of `QMetaMethod::MethodType`. -/
inductive MethodType where
  | Method
  | Signal
  | Slot
  | Constructor
  deriving DecidableEq, Repr

/-- A `QMetaMethod` handle.  The default value is the invalid handle
`QMetaMethod()`: no enclosing descriptor, index `-1`, no parameters. -/
structure QMetaMethod where
  mobj : Option Nat := none
  methodIndex : Int := -1
  parameterTypes : List Int := []
  returnType : Int := QMetaType.UnknownType
  name : String := ""
  methodSignature : String := ""
  methodType : MethodType := MethodType.Method
  deriving DecidableEq, Repr

/-- Number of parameters, `QMetaMethod::parameterCount`. -/
def QMetaMethod.parameterCount (m : QMetaMethod) : Nat :=
  m.parameterTypes.length

/-- Type id of parameter `i`, `QMetaMethod::parameterType`; `UnknownType`
outside the parameter list. -/
def QMetaMethod.parameterType (m : QMetaMethod) (i : Int) : Int :=
  if 0 ≤ i ∧ i < m.parameterTypes.length then
    m.parameterTypes.getD i.toNat QMetaType.UnknownType
  else QMetaType.UnknownType

/-- A `QMetaProperty` handle.  The default value is the invalid handle. -/
structure QMetaProperty where
  mobj : Option Nat := none
  propertyIndex : Int := -1
  userType : Int := QMetaType.UnknownType
  name : String := ""
  notifySignalIndex : Int := -1
  deriving DecidableEq, Repr

/-- A descriptor (`QMetaObject`).  Members are listed by absolute index:
first the members inherited from the super classes, then the own ones. -/
structure QMetaObject where
  superMethods : List QMetaMethod := []
  ownMethods : List QMetaMethod := []
  superProperties : List QMetaProperty := []
  ownProperties : List QMetaProperty := []
  deriving DecidableEq, Repr

/-- Number of inherited methods, `QMetaObject::methodOffset`. -/
def QMetaObject.methodOffset (d : QMetaObject) : Int :=
  d.superMethods.length

/-- Number of all methods, `QMetaObject::methodCount`. -/
def QMetaObject.methodCount (d : QMetaObject) : Int :=
  d.superMethods.length + d.ownMethods.length

/-- Number of inherited properties, `QMetaObject::propertyOffset`. -/
def QMetaObject.propertyOffset (d : QMetaObject) : Int :=
  d.superProperties.length

/-- Number of all properties, `QMetaObject::propertyCount`. -/
def QMetaObject.propertyCount (d : QMetaObject) : Int :=
  d.superProperties.length + d.ownProperties.length

/-- The method at an absolute index, `QMetaObject::method`; the invalid
handle when the index is out of range. -/
def QMetaObject.method (d : QMetaObject) (i : Int) : QMetaMethod :=
  if 0 ≤ i ∧ i < d.methodCount then
    (d.superMethods ++ d.ownMethods).getD i.toNat {}
  else {}

/-- The property at an absolute index, `QMetaObject::property`; the invalid
handle when the index is out of range. -/
def QMetaObject.property (d : QMetaObject) (i : Int) : QMetaProperty :=
  if 0 ≤ i ∧ i < d.propertyCount then
    (d.superProperties ++ d.ownProperties).getD i.toNat {}
  else {}

/-- The largest index of an entry satisfying `p`, or `-1` when there is
none: the result convention of the `indexOf...` functions of
`QMetaObject`, which search the derived class first. -/
def lastIndex {α : Type} (p : α → Bool) : List α → Int
  | [] => -1
  | x :: xs =>
    if lastIndex p xs ≥ 0 then lastIndex p xs + 1
    else if p x then 0 else -1

/-- Absolute index of the method with a signature,
`QMetaObject::indexOfMethod`; `-1` when there is none. -/
def QMetaObject.indexOfMethod (d : QMetaObject) (signature : String) : Int :=
  lastIndex (fun m => decide (m.methodSignature = signature))
    (d.superMethods ++ d.ownMethods)

/-- Absolute index of the signal with a signature,
`QMetaObject::indexOfSignal`; `-1` when there is none. -/
def QMetaObject.indexOfSignal (d : QMetaObject) (signature : String) : Int :=
  lastIndex
    (fun m => decide (m.methodType = MethodType.Signal) &&
      decide (m.methodSignature = signature))
    (d.superMethods ++ d.ownMethods)

/-- Absolute index of the slot with a signature,
`QMetaObject::indexOfSlot`; `-1` when there is none. -/
def QMetaObject.indexOfSlot (d : QMetaObject) (signature : String) : Int :=
  lastIndex
    (fun m => decide (m.methodType = MethodType.Slot) &&
      decide (m.methodSignature = signature))
    (d.superMethods ++ d.ownMethods)

/-- Absolute index of the property with a name,
`QMetaObject::indexOfProperty`; `-1` when there is none. -/
def QMetaObject.indexOfProperty (d : QMetaObject) (name : String) : Int :=
  lastIndex (fun q => decide (q.name = name))
    (d.superProperties ++ d.ownProperties)

/-- A receiver: its identity and the thread that owns it
(`QObject::thread`). -/
structure QObject where
  id : Nat
  thread : Nat
  deriving DecidableEq, Repr

/-- What the code reads from its surroundings: the descriptor stored at an
address, the identity of the calling thread (`QThread::currentThread`),
the descriptor address of an object (`QObject::metaObject`), the function
`QMetaObject::normalizedSignature`, and what the introspection functions
`parameterTypes`, `parameterCount` and `returnType` of a `QskMetaFunction`
handle on a given record pointer return.  `QskMetaFunction.h` is not among
the sources, so these three results are taken as given; for
`parameterTypes`, `none` is the null pointer and `some types` an array
with exactly the entries of `types`. -/
structure World where
  metaObject : Nat → QMetaObject
  currentThread : Nat
  objectMetaObject : QObject → Nat := fun _ => 0
  normalizedSignature : String → String := fun s => s
  functionParameterTypes : Option Nat → Option (List Int) := fun _ => none
  functionParameterCount : Option Nat → Int := fun _ => 0
  functionReturnType : Option Nat → Int := fun _ => QMetaType.UnknownType

/-- Conversion of an `int` to `ushort`. -/
def toUShort (x : Int) : Nat := (x % 65536).toNat

/-- The notify signal of a property, `QMetaProperty::notifySignal`: the
method of the enclosing descriptor at the notify signal index, the invalid
handle when the property is invalid or has no notify signal. -/
def QMetaProperty.notifySignal (w : World) (q : QMetaProperty) : QMetaMethod :=
  match q.mobj with
  | none => {}
  | some m =>
    if q.notifySignalIndex ≠ -1 then (w.metaObject m).method q.notifySignalIndex
    else {}

/-! ## Name resolution -/

/-- The overload `qskMetaMethod( metaObject, methodName )`.  A C string is
an `Option String`, `none` being the null pointer; `methodName[ 0 ]` is the
first character, if any, and `methodName + 1` drops it.  The indicators
are `'0' + QSIGNAL_CODE` and `'0' + QSLOT_CODE`, the codes being `2` and
`1`. -/
def qskMetaMethod (w : World) (metaObject : Option Nat)
    (methodName : Option String) : QMetaMethod :=
  match metaObject, methodName with
  | some p, some name =>
    let signalIndicator := '2'
    let slotIndicator := '1'
    let index : Int :=
      if name.data.head? = some signalIndicator then
        let signature := w.normalizedSignature (String.mk name.data.tail)
        (w.metaObject p).indexOfSignal signature
      else if name.data.head? = some slotIndicator then
        let signature := w.normalizedSignature (String.mk name.data.tail)
        (w.metaObject p).indexOfSlot signature
      else
        let signature := w.normalizedSignature name
        (w.metaObject p).indexOfMethod signature
    if index ≥ 0 then (w.metaObject p).method index else {}
  | _, _ => {}

/-- The overload `qskMetaMethod( object, methodName )`. -/
def qskMetaMethodOfObject (w : World) (object : Option QObject)
    (methodName : Option String) : QMetaMethod :=
  match object with
  | some o => qskMetaMethod w (some (w.objectMetaObject o)) methodName
  | none => {}

/-- The overload `qskNotifySignal( metaObject, propertyName )`: the method
returned, and the indices with which `metaObject->property( ... )` was
called, in program order. -/
def qskNotifySignal (w : World) (metaObject : Option Nat)
    (propertyName : Option String) : QMetaMethod × List Int :=
  match metaObject, propertyName with
  | some p, some name =>
    let propertyIndex := (w.metaObject p).indexOfProperty name
    if propertyIndex ≠ 0 then
      let property := (w.metaObject p).property propertyIndex
      (property.notifySignal w, [propertyIndex])
    else ({}, [])
  | _, _ => ({}, [])

/-- The overload `qskNotifySignal( object, propertyName )`. -/
def qskNotifySignalOfObject (w : World) (object : Option QObject)
    (propertyName : Option String) : QMetaMethod × List Int :=
  match object with
  | some o => qskNotifySignal w (some (w.objectMetaObject o)) propertyName
  | none => ({}, [])

/-! ## The call envelope -/

/-- The envelope `MetaCallEvent`.  `m_callFunction` is the address of the
descriptor whose `static_metacall` was stored.  `nargs` is the number of
slots the envelope allocated itself: `0` for the constructor that takes
the argument array of the caller, `argc` for the one that allocates. -/
structure MetaCallEvent where
  m_call : Call
  m_callFunction : Nat
  offset : Nat
  m_index : Nat
  nargs : Nat
  types : List Int
  args : List VoidPtr
  semaphore : Bool
  deriving DecidableEq, Repr

/-- Calls leaving the translation unit, in program order. -/
inductive Effect where
  | staticMetacall (metaObject : Nat) (receiver : QObject) (call : Call)
      (index : Nat) (args : List VoidPtr)
  | postEvent (receiver : QObject) (event : MetaCallEvent)
  | deleteEvent (event : MetaCallEvent)
  | semaphoreAcquire
  | functionInvoke (functionCall : Nat) (object : Option QObject)
      (args : List VoidPtr) (connectionType : Nat)
  deriving DecidableEq, Repr

/-- Constructor `MetaCallEvent( call, metaObject, offset, index, args,
semaphore )`: the envelope keeps the array it is given. -/
def MetaCallEvent.withArgs (call : Call) (metaObject : Nat)
    (offset index : Nat) (args : List VoidPtr) (semaphore : Bool) :
    MetaCallEvent :=
  { m_call := call, m_callFunction := metaObject, offset := offset,
    m_index := index, nargs := 0, types := [], args := args,
    semaphore := semaphore }

/-- Constructor `MetaCallEvent( call, metaObject, offset, index, argc )`:
the envelope allocates `argc` zeroed slots and has no semaphore. -/
def MetaCallEvent.withArgc (call : Call) (metaObject : Nat)
    (offset index : Nat) (argc : Nat) : MetaCallEvent :=
  { m_call := call, m_callFunction := metaObject, offset := offset,
    m_index := index, nargs := argc,
    types := List.replicate argc QMetaType.UnknownType,
    args := List.replicate argc VoidPtr.null, semaphore := false }

/-- Delivery, `MetaCallEvent::placeMetaCall`. -/
def MetaCallEvent.placeMetaCall (e : MetaCallEvent) (object : QObject) :
    List Effect :=
  [Effect.staticMetacall e.m_callFunction object e.m_call e.m_index e.args]

/-! ## The dispatcher -/

/-- The loop `for ( int i = 1; i < argc; i++ )` of the queued branch of
`qskInvokeMetaCall`, run for `n` more rounds from index `i`.  The boolean
is `false` when the loop met a null argument, cleared `receiver` and broke
off. -/
def marshalArguments (method : QMetaMethod) (args : List VoidPtr) :
    Nat → Nat → List Int → List VoidPtr → List Int × List VoidPtr × Bool
  | 0, _, types, arguments => (types, arguments, true)
  | n + 1, i, types, arguments =>
    if args.getD i VoidPtr.null = VoidPtr.null then
      (types, arguments, false)
    else
      let type := method.parameterType ((i : Int) - 1)
      let arg := args.getD i VoidPtr.null
      marshalArguments method args n (i + 1)
        (types.set i type) (arguments.set i (VoidPtr.created type arg))

/-- The dispatcher `qskInvokeMetaCall`.  `metaObject` is the address of the
descriptor, which its two callers have checked to be non-null. -/
def qskInvokeMetaCall (w : World) (object : Option QObject)
    (metaObject : Nat) (call : Call) (offset index : Nat)
    (args : List VoidPtr) (connectionType : Nat) : List Effect :=
  let receiver := object
  let invokeType := connectionType &&& 0x3
  let invokeType :=
    if invokeType = Qt.AutoConnection then
      match object with
      | some o =>
        if o.thread ≠ w.currentThread then Qt.QueuedConnection
        else Qt.DirectConnection
      | none => Qt.DirectConnection
    else invokeType
  match invokeType with
  | 1 =>
    match receiver with
    | none => []
    | some r => [Effect.staticMetacall metaObject r call index args]
  | 3 =>
    match receiver with
    | none => []
    | some r =>
      if r.thread = w.currentThread then []
      else
        let event :=
          MetaCallEvent.withArgs call metaObject offset index args true
        [Effect.postEvent r event, Effect.semaphoreAcquire]
  | 2 =>
    match receiver with
    | none => []
    | some r =>
      if call = Call.InvokeMetaMethod then
        let method := (w.metaObject metaObject).method ((offset : Int) + index)
        let argc := method.parameterCount + 1
        let event := MetaCallEvent.withArgc call metaObject offset index argc
        let types := event.types.set 0 QMetaType.UnknownType
        let arguments := event.args.set 0 VoidPtr.null
        let (types, arguments, keep) :=
          marshalArguments method args (argc - 1) 1 types arguments
        let event := { event with types := types, args := arguments }
        if keep then [Effect.postEvent r event]
        else [Effect.deleteEvent event]
      else
        let property :=
          (w.metaObject metaObject).property ((offset : Int) + index)
        let event := MetaCallEvent.withArgc call metaObject offset index 1
        let type := property.userType
        let arg := args.getD 0 VoidPtr.null
        let event :=
          { event with
            types := event.types.set 0 type
            args := event.args.set 0 (VoidPtr.created type arg) }
        [Effect.postEvent r event]
  | _ => []

/-- The overload `qskInvokeMetaPropertyWrite( context, metaObject,
propertyIndex, args, connectionType )`. -/
def qskInvokeMetaPropertyWrite (w : World) (context : Option QObject)
    (metaObject : Option Nat) (propertyIndex : Int) (args : List VoidPtr)
    (connectionType : Nat) : List Effect :=
  match metaObject with
  | none => []
  | some p =>
    if propertyIndex ≥ 0 ∧ propertyIndex < (w.metaObject p).propertyCount then
      let offset := (w.metaObject p).propertyOffset
      let index := propertyIndex - offset
      qskInvokeMetaCall w context p Call.WriteProperty
        (toUShort offset) (toUShort index) (args.drop 1) connectionType
    else []

/-- The overload `qskInvokeMetaMethod( object, metaObject, methodIndex,
args, connectionType )`. -/
def qskInvokeMetaMethod (w : World) (object : Option QObject)
    (metaObject : Option Nat) (methodIndex : Int) (args : List VoidPtr)
    (connectionType : Nat) : List Effect :=
  match metaObject with
  | none => []
  | some p =>
    if methodIndex ≥ 0 ∧ methodIndex < (w.metaObject p).methodCount then
      let offset := (w.metaObject p).methodOffset
      let index := methodIndex - offset
      qskInvokeMetaCall w object p Call.InvokeMetaMethod
        (toUShort offset) (toUShort index) args connectionType
    else []

/-! ## The invocable identity -/

/-- The kind tag `QskMetaInvokable::Type`. -/
inductive InvokableType where
  | Invalid
  | MetaMethod
  | MetaProperty
  | MetaFunction
  deriving DecidableEq, Repr

/-- The identity `QskMetaInvokable`: the tag `m_type`, the members
`metaObject` and `index` of `m_metaData`, and the member `functionCall` of
`m_functionData`.  The source keeps the two payloads in a union and only
reads the one selected by the tag; here they are separate fields, and a
field the source leaves unwritten keeps its previous value. -/
structure QskMetaInvokable where
  m_type : InvokableType := InvokableType.Invalid
  metaObject : Option Nat := none
  index : Int := 0
  functionCall : Option Nat := none
  deriving DecidableEq, Repr

namespace QskMetaInvokable

/-- The comparison `operator==`. -/
def eq (self other : QskMetaInvokable) : Bool :=
  if self.m_type ≠ other.m_type then false
  else
    match self.m_type with
    | InvokableType.MetaMethod | InvokableType.MetaProperty =>
      decide (self.metaObject = other.metaObject) &&
        decide (self.index = other.index)
    | InvokableType.MetaFunction =>
      decide (self.functionCall = other.functionCall)
    | InvokableType.Invalid => true

/-- The query `isNull`. -/
def isNull (w : World) (self : QskMetaInvokable) : Bool :=
  match self.m_type with
  | InvokableType.MetaMethod | InvokableType.MetaProperty =>
    match self.metaObject with
    | none => true
    | some p =>
      if self.index < 0 then true
      else
        let count :=
          if self.m_type = InvokableType.MetaMethod then
            (w.metaObject p).methodCount
          else (w.metaObject p).propertyCount
        decide (self.index ≥ count)
  | InvokableType.MetaFunction => decide (self.functionCall = none)
  | InvokableType.Invalid => true

/-- The entry point `invoke`. -/
def invoke (w : World) (self : QskMetaInvokable) (object : Option QObject)
    (args : List VoidPtr) (connectionType : Nat) : List Effect :=
  if self.isNull w then []
  else
    match self.m_type with
    | InvokableType.MetaMethod =>
      qskInvokeMetaMethod w object self.metaObject self.index args
        connectionType
    | InvokableType.MetaProperty =>
      qskInvokeMetaPropertyWrite w object self.metaObject self.index args
        connectionType
    | InvokableType.MetaFunction =>
      match self.functionCall with
      | some f => [Effect.functionInvoke f object args connectionType]
      | none => []
    | InvokableType.Invalid => []

end QskMetaInvokable

/-! ## The dispatcher with a target that can be destroyed

The dispatcher above takes the target to exist for the whole call.  Here
the lifetime of the target is an input: `alive k` tells whether the object
behind a non-null `object` still exists when the dispatcher reaches
program point `k`:

* `0`: `QPointer< QObject > receiver( object )`, which reads the object to
  set up the guard;
* `1`: `object->thread()` of the Auto resolution, a read through the raw
  pointer;
* `2`: the test of `receiver` that opens each branch, and the use of
  `receiver` that follows it;
* `3`: the test `if ( receiver )` before `postEvent` in the queued branch.

A `QPointer` reads as null once the object is destroyed.  A read of a
destroyed object through the raw pointer is undefined; the result is then
`none`. -/

/-- What `receiver`, set up from `object`, reads at program point `k`. -/
def QPointer.data (object : Option QObject) (alive : Nat → Bool) (k : Nat) :
    Option QObject :=
  match object with
  | some o => if alive k then some o else none
  | none => none

/-- The dispatcher `qskInvokeMetaCall` for a target of lifetime `alive`. -/
def qskInvokeMetaCallTracked (w : World) (object : Option QObject)
    (alive : Nat → Bool) (metaObject : Nat) (call : Call)
    (offset index : Nat) (args : List VoidPtr) (connectionType : Nat) :
    Option (List Effect) :=
  if object.isSome ∧ alive 0 = false then none
  else
    let invokeType := connectionType &&& 0x3
    let resolved : Option Nat :=
      if invokeType = Qt.AutoConnection then
        match object with
        | some o =>
          if alive 1 then
            some (if o.thread ≠ w.currentThread then Qt.QueuedConnection
              else Qt.DirectConnection)
          else none
        | none => some Qt.DirectConnection
      else some invokeType
    match resolved with
    | none => none
    | some 1 =>
      match QPointer.data object alive 2 with
      | none => some []
      | some r => some [Effect.staticMetacall metaObject r call index args]
    | some 3 =>
      match QPointer.data object alive 2 with
      | none => some []
      | some r =>
        if r.thread = w.currentThread then some []
        else
          let event :=
            MetaCallEvent.withArgs call metaObject offset index args true
          some [Effect.postEvent r event, Effect.semaphoreAcquire]
    | some 2 =>
      match QPointer.data object alive 2 with
      | none => some []
      | some r =>
        if call = Call.InvokeMetaMethod then
          let method :=
            (w.metaObject metaObject).method ((offset : Int) + index)
          let argc := method.parameterCount + 1
          let event :=
            MetaCallEvent.withArgc call metaObject offset index argc
          let types := event.types.set 0 QMetaType.UnknownType
          let arguments := event.args.set 0 VoidPtr.null
          let (types, arguments, keep) :=
            marshalArguments method args (argc - 1) 1 types arguments
          let event := { event with types := types, args := arguments }
          if keep ∧ (QPointer.data object alive 3).isSome then
            some [Effect.postEvent r event]
          else some [Effect.deleteEvent event]
        else
          let property :=
            (w.metaObject metaObject).property ((offset : Int) + index)
          let event := MetaCallEvent.withArgc call metaObject offset index 1
          let type := property.userType
          let arg := args.getD 0 VoidPtr.null
          let event :=
            { event with
              types := event.types.set 0 type
              args := event.args.set 0 (VoidPtr.created type arg) }
          if (QPointer.data object alive 3).isSome then
            some [Effect.postEvent r event]
          else some [Effect.deleteEvent event]
    | some _ => some []

/-- The overload `qskInvokeMetaPropertyWrite( context, metaObject,
propertyIndex, args, connectionType )` for a target of lifetime `alive`. -/
def qskInvokeMetaPropertyWriteTracked (w : World) (context : Option QObject)
    (alive : Nat → Bool) (metaObject : Option Nat) (propertyIndex : Int)
    (args : List VoidPtr) (connectionType : Nat) : Option (List Effect) :=
  match metaObject with
  | none => some []
  | some p =>
    if propertyIndex ≥ 0 ∧ propertyIndex < (w.metaObject p).propertyCount then
      let offset := (w.metaObject p).propertyOffset
      let index := propertyIndex - offset
      qskInvokeMetaCallTracked w context alive p Call.WriteProperty
        (toUShort offset) (toUShort index) (args.drop 1) connectionType
    else some []

/-- The overload `qskInvokeMetaMethod( object, metaObject, methodIndex,
args, connectionType )` for a target of lifetime `alive`. -/
def qskInvokeMetaMethodTracked (w : World) (object : Option QObject)
    (alive : Nat → Bool) (metaObject : Option Nat) (methodIndex : Int)
    (args : List VoidPtr) (connectionType : Nat) : Option (List Effect) :=
  match metaObject with
  | none => some []
  | some p =>
    if methodIndex ≥ 0 ∧ methodIndex < (w.metaObject p).methodCount then
      let offset := (w.metaObject p).methodOffset
      let index := methodIndex - offset
      qskInvokeMetaCallTracked w object alive p Call.InvokeMetaMethod
        (toUShort offset) (toUShort index) args connectionType
    else some []

/-- The entry point `invoke` for a target of lifetime `alive`. -/
def QskMetaInvokable.invokeTracked (w : World) (self : QskMetaInvokable)
    (object : Option QObject) (alive : Nat → Bool) (args : List VoidPtr)
    (connectionType : Nat) : Option (List Effect) :=
  if self.isNull w then some []
  else
    match self.m_type with
    | InvokableType.MetaMethod =>
      qskInvokeMetaMethodTracked w object alive self.metaObject self.index
        args connectionType
    | InvokableType.MetaProperty =>
      qskInvokeMetaPropertyWriteTracked w object alive self.metaObject
        self.index args connectionType
    | InvokableType.MetaFunction =>
      match self.functionCall with
      | some f => some [Effect.functionInvoke f object args connectionType]
      | none => some []
    | InvokableType.Invalid => some []

/-! ## Reference counted callable records -/

/-- The counts of the callable records: `some c` for a live record with
count `c`, `none` for an address that holds no live record. -/
abbrev Records := Nat → Option Int

/-- Modelled from the spec: `FunctionCall::ref` of `QskMetaFunction.h`,
which is not among the sources; section 4.5 has it increment the count. -/
def FunctionCall.ref (h : Records) (p : Nat) : Records :=
  fun q => if q = p then (h q).map (fun c => c + 1) else h q

/-- Modelled from the spec: `FunctionCall::destroyIfLastRef` of
`QskMetaFunction.h`, which is not among the sources; section 4.5 has it
decrement the count and release the record when the result is zero. -/
def FunctionCall.destroyIfLastRef (h : Records) (p : Nat) : Records :=
  fun q =>
    if q = p then
      match h q with
      | some c => if c - 1 = 0 then none else some (c - 1)
      | none => none
    else h q

/-- The helper `Function::ref`: nothing on a null pointer. -/
def Function.ref (h : Records) (functionCall : Option Nat) : Records :=
  match functionCall with
  | some p => FunctionCall.ref h p
  | none => h

/-- The helper `Function::deref`: nothing on a null pointer. -/
def Function.deref (h : Records) (functionCall : Option Nat) : Records :=
  match functionCall with
  | some p => FunctionCall.destroyIfLastRef h p
  | none => h

namespace QskMetaInvokable

/-- The copy constructor `QskMetaInvokable( const QskMetaInvokable& )`: the
new identity and the counts after it. -/
def copyConstruct (other : QskMetaInvokable) (h : Records) :
    QskMetaInvokable × Records :=
  let self : QskMetaInvokable := { m_type := other.m_type }
  match self.m_type with
  | InvokableType.MetaMethod | InvokableType.MetaProperty =>
    ({ self with metaObject := other.metaObject, index := other.index }, h)
  | InvokableType.MetaFunction =>
    ({ self with functionCall := other.functionCall },
      Function.ref h other.functionCall)
  | InvokableType.Invalid => (self, h)

/-- The destructor `~QskMetaInvokable`: the counts after it. -/
def destruct (self : QskMetaInvokable) (h : Records) : Records :=
  if self.m_type = InvokableType.MetaFunction then
    Function.deref h self.functionCall
  else h

/-- The assignment `operator=`: the assigned identity and the counts after
it.  In a self assignment `other` is `self`; the source reads the fields
of `other` after the release, which does not change them. -/
def assign (self other : QskMetaInvokable) (h : Records) :
    QskMetaInvokable × Records :=
  match other.m_type with
  | InvokableType.MetaMethod | InvokableType.MetaProperty =>
    let h :=
      if self.m_type = InvokableType.MetaFunction then
        Function.deref h self.functionCall
      else h
    ({ self with
        metaObject := other.metaObject, index := other.index,
        m_type := other.m_type }, h)
  | InvokableType.MetaFunction =>
    let h :=
      if self.m_type = InvokableType.MetaFunction then
        Function.deref h self.functionCall
      else h
    ({ self with functionCall := other.functionCall, m_type := other.m_type },
      Function.ref h other.functionCall)
  | InvokableType.Invalid =>
    let h :=
      if self.m_type = InvokableType.MetaFunction then
        Function.deref h self.functionCall
      else h
    ({ self with m_type := other.m_type }, h)

/-- The operation `reset`: the identity and the counts after it. -/
def reset (self : QskMetaInvokable) (h : Records) :
    QskMetaInvokable × Records :=
  let h :=
    if self.m_type = InvokableType.MetaFunction then
      Function.deref h self.functionCall
    else h
  ({ self with m_type := InvokableType.Invalid }, h)

/-- The constructor `QskMetaInvokable( const QMetaMethod& )`. -/
def ofMethod (method : QMetaMethod) : QskMetaInvokable :=
  { m_type := InvokableType.MetaMethod, metaObject := method.mobj,
    index := method.methodIndex }

/-- The constructor `QskMetaInvokable( const QObject*, const char* )`. -/
def ofObjectName (w : World) (object : Option QObject)
    (methodName : Option String) : QskMetaInvokable :=
  ofMethod (qskMetaMethodOfObject w object methodName)

/-- The constructor `QskMetaInvokable( const QMetaObject*, const char* )`. -/
def ofMetaObjectName (w : World) (metaObject : Option Nat)
    (methodName : Option String) : QskMetaInvokable :=
  ofMethod (qskMetaMethod w metaObject methodName)

/-- The constructor `QskMetaInvokable( const QMetaProperty& )`. -/
def ofProperty (property : QMetaProperty) : QskMetaInvokable :=
  { m_type := InvokableType.MetaProperty, metaObject := property.mobj,
    index := property.propertyIndex }

end QskMetaInvokable

/-- Modelled from the spec: the class `QskMetaFunction` of
`QskMetaFunction.h`, which is not among the sources: the closure handle of
section 4.1, holding a pointer to a reference counted callable record,
null for a default constructed handle. -/
structure QskMetaFunction where
  m_functionCall : Option Nat := none
  deriving DecidableEq, Repr

/-- Modelled from the spec: the accessor `QskMetaFunction::functionCall` of
`QskMetaFunction.h`, the record the handle holds. -/
def QskMetaFunction.functionCall (f : QskMetaFunction) : Option Nat :=
  f.m_functionCall

namespace QskMetaInvokable

/-- The constructor `QskMetaInvokable( const QskMetaFunction& )`: the new
identity and the counts after it. -/
def ofFunction (function : QskMetaFunction) (h : Records) :
    QskMetaInvokable × Records :=
  let self : QskMetaInvokable :=
    { m_type := InvokableType.MetaFunction,
      functionCall := function.functionCall }
  (self, Function.ref h self.functionCall)

/-- The accessor `method`. -/
def method (w : World) (self : QskMetaInvokable) : QMetaMethod :=
  match self.m_type, self.metaObject with
  | InvokableType.MetaMethod, some p => (w.metaObject p).method self.index
  | _, _ => {}

/-- The accessor `property`. -/
def property (w : World) (self : QskMetaInvokable) : QMetaProperty :=
  match self.m_type, self.metaObject with
  | InvokableType.MetaProperty, some p => (w.metaObject p).property self.index
  | _, _ => {}

/-- The accessor `function`: a handle on the record of a Function identity,
a default constructed handle otherwise.  The handle is a temporary; the
count it takes and gives back is left out. -/
def function (self : QskMetaInvokable) : QskMetaFunction :=
  match self.m_type, self.functionCall with
  | InvokableType.MetaFunction, some f => { m_functionCall := some f }
  | _, _ => {}

/-- The query `parameterCount`. -/
def parameterCount (w : World) (self : QskMetaInvokable) : Int :=
  match self.m_type with
  | InvokableType.MetaMethod => (self.method w).parameterCount
  | InvokableType.MetaProperty => 1
  | InvokableType.MetaFunction =>
    w.functionParameterCount self.function.functionCall
  | InvokableType.Invalid => 0

/-- The query `parameterType`.  For a Function identity the source reads
`types[ index ]` from the pointer that `function().parameterTypes()`
returns, with no test of the pointer or the index: the result is `none`
when that read is through the null pointer or outside the array. -/
def parameterType (w : World) (self : QskMetaInvokable) (index : Int) :
    Option Int :=
  match self.m_type with
  | InvokableType.MetaMethod => some ((self.method w).parameterType index)
  | InvokableType.MetaProperty => some (self.property w).userType
  | InvokableType.MetaFunction =>
    match w.functionParameterTypes self.function.functionCall with
    | none => none
    | some types =>
      if 0 ≤ index ∧ index < types.length then types[index.toNat]?
      else none
  | InvokableType.Invalid => some QMetaType.UnknownType

/-- The query `returnType`. -/
def returnType (w : World) (self : QskMetaInvokable) : Int :=
  match self.m_type with
  | InvokableType.MetaMethod => (self.method w).returnType
  | InvokableType.MetaFunction =>
    w.functionReturnType self.function.functionCall
  | InvokableType.MetaProperty => QMetaType.Void
  | InvokableType.Invalid => QMetaType.Void

/-- The query `name`. -/
def name (w : World) (self : QskMetaInvokable) : String :=
  match self.m_type with
  | InvokableType.MetaMethod => (self.method w).name
  | InvokableType.MetaProperty => (self.property w).name
  | InvokableType.MetaFunction => ""
  | InvokableType.Invalid => ""

end QskMetaInvokable

/-! ## Size hints of items -/

/-- The enumeration `Qt::SizeHint`. -/
inductive Qt.SizeHint where
  | MinimumSize
  | PreferredSize
  | MaximumSize
  | MinimumDescent
  | NSizeHints
  deriving DecidableEq, Repr

/-- The integer value of a `Qt::SizeHint`, used when it indexes an array. -/
def Qt.SizeHint.toNat : Qt.SizeHint → Nat
  | Qt.SizeHint.MinimumSize => 0
  | Qt.SizeHint.PreferredSize => 1
  | Qt.SizeHint.MaximumSize => 2
  | Qt.SizeHint.MinimumDescent => 3
  | Qt.SizeHint.NSizeHints => 4

/-- A `QSizeF`.  A `qreal` is a rational number here: the function below
only compares such values with zero and copies them.  The default value
is the default constructed `QSizeF()`, of width and height `-1`. -/
structure QSizeF where
  width : ℚ := -1
  height : ℚ := -1
  deriving DecidableEq, Repr

/-- What `qskEffectiveSizeHint` reads from a `QQuickItem`.  `control` is the
result of `qskControlCast( item )`: `none` when the item is no
`QskControl`, else the function `effectiveSizeHint` of the control;
neither is among the sources.  `property name` is the size that the
variant `item->property( name )` converts to, `none` when
`canConvert< QSizeF >()` is false. -/
structure QQuickItem where
  control : Option (Qt.SizeHint → QSizeF → QSizeF)
  property : String → Option QSizeF
  implicitWidth : ℚ
  implicitHeight : ℚ

/-- The table `properties` of `qskEffectiveSizeHint`. -/
def properties : List String :=
  ["minimumSize", "preferredSize", "maximumSize"]

/-- The function `qskEffectiveSizeHint`.  The result is `none` when the
read `properties[ whichHint ]` is outside the table. -/
def qskEffectiveSizeHint (item : Option QQuickItem)
    (whichHint : Qt.SizeHint) (constraint : QSizeF) : Option QSizeF :=
  match item.bind (fun i => i.control) with
  | some effectiveSizeHint => some (effectiveSizeHint whichHint constraint)
  | none =>
    if constraint.width ≥ 0 ∨ constraint.height ≥ 0 then some constraint
    else
      match item with
      | none => some {}
      | some i =>
        match properties[whichHint.toNat]? with
        | none => none
        | some name =>
          let hint : QSizeF :=
            match i.property name with
            | some size => size
            | none => {}
          let hint :=
            if whichHint = Qt.SizeHint.PreferredSize then
              let hint :=
                if hint.width < 0 then { hint with width := i.implicitWidth }
                else hint
              if hint.height < 0 then { hint with height := i.implicitHeight }
              else hint
            else hint
          some hint

/-! ## Concrete inputs -/

/-- A descriptor with one inherited and one own method, and one inherited
and one own property. -/
def exampleMetaObject : QMetaObject :=
  { superMethods :=
      [{ mobj := some 9, methodIndex := 0, parameterTypes := [2] }],
    ownMethods :=
      [{ mobj := some 1, methodIndex := 1, parameterTypes := [2, 10] }],
    superProperties := [{ mobj := some 9, propertyIndex := 0, userType := 10 }],
    ownProperties := [{ mobj := some 1, propertyIndex := 1, userType := 2 }] }

/-- A world where every address holds `exampleMetaObject` and the calling
thread is thread `0`. -/
def exampleWorld : World :=
  { metaObject := fun _ => exampleMetaObject, currentThread := 0 }

/-- Counts with one live record, at address `7`, of count `1`. -/
def exampleRecords : Records :=
  fun q => if q = 7 then some 1 else none

/-- The Member identity of the own method, absolute index `1`. -/
def ownMethodIdentity : QskMetaInvokable :=
  { m_type := InvokableType.MetaMethod, metaObject := some 1, index := 1 }

/-- The Member identity of the inherited method, absolute index `0`, held
with the descriptor of the derived class. -/
def inheritedMethodIdentity : QskMetaInvokable :=
  { m_type := InvokableType.MetaMethod, metaObject := some 1, index := 0 }

/-- The Property identity of the own property, absolute index `1`. -/
def ownPropertyIdentity : QskMetaInvokable :=
  { m_type := InvokableType.MetaProperty, metaObject := some 1, index := 1 }

/-- A Member identity whose index is past the last method. -/
def staleMethodIdentity : QskMetaInvokable :=
  { m_type := InvokableType.MetaMethod, metaObject := some 1, index := 2 }

/-- A Function identity holding the record at address `7`. -/
def functionIdentity : QskMetaInvokable :=
  { m_type := InvokableType.MetaFunction, functionCall := some 7 }

/-- A Function identity holding the record at address `8`. -/
def secondFunctionIdentity : QskMetaInvokable :=
  { m_type := InvokableType.MetaFunction, functionCall := some 8 }

/-- A Function identity with an absent record, as built from a default
constructed `QskMetaFunction`. -/
def absentFunctionIdentity : QskMetaInvokable :=
  { m_type := InvokableType.MetaFunction, functionCall := none }

/-- Counts with a record at address `7` of count `2` and a record at
address `8` of count `1`. -/
def sharedRecords : Records :=
  fun q => if q = 7 then some 2 else if q = 8 then some 1 else none

/-- The descriptor of `QObject` itself, which has no super class: three
signals and a slot, and the property `objectName`, at index `0`, whose
notify signal is the method at index `2`. -/
def qobjectMetaObject : QMetaObject :=
  { ownMethods :=
      [{ mobj := some 1, methodIndex := 0, parameterTypes := [39],
         name := "destroyed", methodSignature := "destroyed(QObject*)",
         methodType := MethodType.Signal },
       { mobj := some 1, methodIndex := 1, name := "destroyed",
         methodSignature := "destroyed()", methodType := MethodType.Signal },
       { mobj := some 1, methodIndex := 2, parameterTypes := [10],
         name := "objectNameChanged",
         methodSignature := "objectNameChanged(QString)",
         methodType := MethodType.Signal },
       { mobj := some 1, methodIndex := 3, name := "deleteLater",
         methodSignature := "deleteLater()", methodType := MethodType.Slot }],
    ownProperties :=
      [{ mobj := some 1, propertyIndex := 0, userType := 10,
         name := "objectName", notifySignalIndex := 2 }] }

/-- A world where every address holds `qobjectMetaObject`. -/
def qobjectWorld : World :=
  { metaObject := fun _ => qobjectMetaObject, currentThread := 0 }

/-- An item that is no `QskControl`, without size properties, of implicit
size `20 x 10`. -/
def plainItem : QQuickItem :=
  { control := none, property := fun _ => none, implicitWidth := 20,
    implicitHeight := 10 }

/-! ## Auxiliary lemmas -/

/-- A value in the range of `ushort` survives the conversion. -/
theorem toUShort_of_lt (x : Int) (h0 : 0 ≤ x) (h1 : x < 65536) :
    ((toUShort x : Nat) : Int) = x := by
  unfold toUShort
  rw [Int.emod_eq_of_lt h0 h1]
  exact Int.toNat_of_nonneg h0

/-- The marshalling loop, when every argument it visits is non-null: it runs to
its end, keeps the lengths and the slots below its start, and fills each
slot it visits with the parameter type and the clone of the argument. -/
theorem marshalArguments_spec (method : QMetaMethod) (args : List VoidPtr) :
    ∀ (n i : Nat) (types : List Int) (arguments : List VoidPtr),
      (∀ j, i ≤ j → j < i + n → args.getD j VoidPtr.null ≠ VoidPtr.null) →
      (marshalArguments method args n i types arguments).2.2 = true ∧
      (marshalArguments method args n i types arguments).1.length
        = types.length ∧
      (marshalArguments method args n i types arguments).2.1.length
        = arguments.length ∧
      (∀ j, j < i →
        (marshalArguments method args n i types arguments).1[j]? = types[j]? ∧
        (marshalArguments method args n i types arguments).2.1[j]?
          = arguments[j]?) ∧
      (∀ j, i ≤ j → j < i + n → j < types.length → j < arguments.length →
        (marshalArguments method args n i types arguments).1[j]?
          = some (method.parameterType ((j : Int) - 1)) ∧
        (marshalArguments method args n i types arguments).2.1[j]?
          = some (VoidPtr.created (method.parameterType ((j : Int) - 1))
              (args.getD j VoidPtr.null))) := by
  intro n
  induction n with
  | zero =>
    intro i types arguments _
    refine ⟨rfl, rfl, rfl, fun j _ => ⟨rfl, rfl⟩, ?_⟩
    intro j h1 h2
    omega
  | succ n ih =>
    intro i types arguments hargs
    have hi : args.getD i VoidPtr.null ≠ VoidPtr.null :=
      hargs i (Nat.le_refl i) (by omega)
    have step : marshalArguments method args (n + 1) i types arguments =
        marshalArguments method args n (i + 1)
          (types.set i (method.parameterType ((i : Int) - 1)))
          (arguments.set i (VoidPtr.created
            (method.parameterType ((i : Int) - 1))
            (args.getD i VoidPtr.null))) := by
      rw [marshalArguments]
      rw [if_neg hi]
    rw [step]
    obtain ⟨h1, h2, h3, h4, h5⟩ := ih (i + 1)
      (types.set i (method.parameterType ((i : Int) - 1)))
      (arguments.set i (VoidPtr.created
        (method.parameterType ((i : Int) - 1)) (args.getD i VoidPtr.null)))
      (fun j hj1 hj2 => hargs j (by omega) (by omega))
    refine ⟨h1, ?_, ?_, ?_, ?_⟩
    · rw [h2, List.length_set]
    · rw [h3, List.length_set]
    · intro j hj
      obtain ⟨a, b⟩ := h4 j (by omega)
      rw [a, b]
      have hne : i ≠ j := by omega
      exact ⟨List.getElem?_set_ne hne, List.getElem?_set_ne hne⟩
    · intro j hj1 hj2 hj3 hj4
      by_cases hij : j = i
      · subst hij
        obtain ⟨a, b⟩ := h4 j (by omega)
        rw [a, b]
        exact ⟨List.getElem?_set_self hj3, List.getElem?_set_self hj4⟩
      · exact h5 j (by omega) (by omega) (by simpa using hj3)
          (by simpa using hj4)


/-- The dispatcher does nothing on a null receiver, whatever the policy. -/
theorem qskInvokeMetaCall_null_receiver (w : World) (metaObject : Nat)
    (call : Call) (offset index : Nat) (args : List VoidPtr)
    (connectionType : Nat) :
    qskInvokeMetaCall w none metaObject call offset index args
      connectionType = [] := by
  unfold qskInvokeMetaCall
  simp only
  split <;> rfl

/-- A Member or Property identity that is not null has a descriptor and an
index inside the member count of that descriptor. -/
theorem metaObject_of_not_isNull (w : World) (a : QskMetaInvokable)
    (hk : a.m_type = InvokableType.MetaMethod ∨
      a.m_type = InvokableType.MetaProperty)
    (hnull : a.isNull w = false) :
    ∃ p, a.metaObject = some p ∧ 0 ≤ a.index ∧
      (a.m_type = InvokableType.MetaMethod →
        a.index < (w.metaObject p).methodCount) ∧
      (a.m_type = InvokableType.MetaProperty →
        a.index < (w.metaObject p).propertyCount) := by
  obtain ⟨t, mo, idx, fc⟩ := a
  cases mo with
  | none => rcases hk with hk | hk <;> simp at hk <;> subst hk <;>
      simp [QskMetaInvokable.isNull] at hnull
  | some p =>
    refine ⟨p, rfl, ?_⟩
    rcases hk with hk | hk <;> simp at hk <;> subst hk <;>
      simp [QskMetaInvokable.isNull] at hnull <;> simp <;> omega

/-- An identity built from a valid method handle holds the enclosing
descriptor of the method, and its index is not below the method offset of
that descriptor: `QMetaMethod::methodIndex` is the method offset of the
enclosing descriptor plus the index `own` of the method among the own
methods of that descriptor. -/
theorem ofMethod_index_not_below_offset (w : World) (m : QMetaMethod)
    (p own : Nat) (hmobj : m.mobj = some p)
    (hindex : m.methodIndex = (w.metaObject p).methodOffset + own) :
    (QskMetaInvokable.ofMethod m).m_type = InvokableType.MetaMethod ∧
    (QskMetaInvokable.ofMethod m).metaObject = some p ∧
    (w.metaObject p).methodOffset ≤ (QskMetaInvokable.ofMethod m).index := by
  refine ⟨rfl, hmobj, ?_⟩
  simp only [QskMetaInvokable.ofMethod, hindex]
  omega

/-- An identity built from a valid property handle holds the enclosing
descriptor of the property, and its index is not below the property offset
of that descriptor: `QMetaProperty::propertyIndex` is the property offset
of the enclosing descriptor plus the index `own` of the property among the
own properties of that descriptor. -/
theorem ofProperty_index_not_below_offset (w : World) (q : QMetaProperty)
    (p own : Nat) (hmobj : q.mobj = some p)
    (hindex : q.propertyIndex = (w.metaObject p).propertyOffset + own) :
    (QskMetaInvokable.ofProperty q).m_type = InvokableType.MetaProperty ∧
    (QskMetaInvokable.ofProperty q).metaObject = some p ∧
    (w.metaObject p).propertyOffset
      ≤ (QskMetaInvokable.ofProperty q).index := by
  refine ⟨rfl, hmobj, ?_⟩
  simp only [QskMetaInvokable.ofProperty, hindex]
  omega

/-! ## Null identities and skipped calls -/

/-- C1: an identity is null exactly when its kind is Invalid, or its kind is
Member or Property and the descriptor is absent, the index is negative or
the index is at least the current method count (Member) or property count
(Property) of the descriptor, or its kind is Function and the record
pointer is absent; in every other case it is not null. -/
theorem isNull_iff (w : World) (a : QskMetaInvokable) :
    a.isNull w = true ↔
      a.m_type = InvokableType.Invalid ∨
      (a.m_type = InvokableType.MetaMethod ∧
        (a.metaObject = none ∨ a.index < 0 ∨
          ∃ p, a.metaObject = some p ∧
            a.index ≥ (w.metaObject p).methodCount)) ∨
      (a.m_type = InvokableType.MetaProperty ∧
        (a.metaObject = none ∨ a.index < 0 ∨
          ∃ p, a.metaObject = some p ∧
            a.index ≥ (w.metaObject p).propertyCount)) ∨
      (a.m_type = InvokableType.MetaFunction ∧ a.functionCall = none) := by
  obtain ⟨t, mo, idx, fc⟩ := a
  cases t <;> cases mo <;> simp [QskMetaInvokable.isNull]

/-- C2: on a null identity `invoke` does nothing, for every target, argument
array and connection policy: no mechanism is called, no envelope posted. -/
theorem invoke_isNull_noop (w : World) (a : QskMetaInvokable)
    (object : Option QObject) (args : List VoidPtr) (connectionType : Nat)
    (h : a.isNull w = true) :
    a.invoke w object args connectionType = [] := by
  simp [QskMetaInvokable.invoke, h]

/-- Witness of C2: a Member identity with a stale index, invoked queued on a
live target of another thread. -/
theorem invoke_isNull_noop_witness :
    staleMethodIdentity.isNull exampleWorld = true ∧
      staleMethodIdentity.invoke exampleWorld (some ⟨5, 1⟩)
        [VoidPtr.null, VoidPtr.caller 7] Qt.QueuedConnection = [] :=
  ⟨by decide,
    invoke_isNull_noop exampleWorld staleMethodIdentity (some ⟨5, 1⟩)
      [VoidPtr.null, VoidPtr.caller 7] Qt.QueuedConnection (by decide)⟩

/-- On the dispatcher that takes the target to exist for the whole call:
for a Member or Property identity and every connection policy, `invoke` on
a null target is skipped. -/
theorem invoke_null_target_noop (w : World) (a : QskMetaInvokable)
    (args : List VoidPtr) (connectionType : Nat)
    (h : a.m_type = InvokableType.MetaMethod ∨
      a.m_type = InvokableType.MetaProperty) :
    a.invoke w none args connectionType = [] := by
  unfold QskMetaInvokable.invoke
  split
  · rfl
  · rcases h with h | h <;> rw [h] <;> simp only
    · unfold qskInvokeMetaMethod
      split
      · rfl
      · split
        · exact qskInvokeMetaCall_null_receiver _ _ _ _ _ _ _
        · rfl
    · unfold qskInvokeMetaPropertyWrite
      split
      · rfl
      · split
        · exact qskInvokeMetaCall_null_receiver _ _ _ _ _ _ _
        · rfl

/-! ## Connection policies -/

/-- C4: under the Auto policy the dispatcher does exactly what it does under
Queued when the target is non-null and owned by another thread than the
calling one, and exactly what it does under Direct otherwise. -/
theorem qskInvokeMetaCall_auto_resolution (w : World) (object : Option QObject)
    (metaObject : Nat) (call : Call) (offset index : Nat)
    (args : List VoidPtr) :
    qskInvokeMetaCall w object metaObject call offset index args
        Qt.AutoConnection =
      match object with
      | some o =>
        if o.thread ≠ w.currentThread then
          qskInvokeMetaCall w object metaObject call offset index args
            Qt.QueuedConnection
        else
          qskInvokeMetaCall w object metaObject call offset index args
            Qt.DirectConnection
      | none =>
        qskInvokeMetaCall w object metaObject call offset index args
          Qt.DirectConnection := by
  cases object with
  | none => simp [qskInvokeMetaCall_null_receiver]
  | some o =>
    by_cases ht : o.thread = w.currentThread
    · simp [qskInvokeMetaCall, Qt.AutoConnection, Qt.DirectConnection,
        Qt.QueuedConnection, ht]
    · simp [qskInvokeMetaCall, Qt.AutoConnection, Qt.DirectConnection,
        Qt.QueuedConnection, ht]

/-- C5: for a Member or Property identity, a BlockingQueued `invoke` on a
target owned by the calling thread returns without calling the member
mechanism, without posting an envelope and without acquiring the
semaphore. -/
theorem invoke_blockingQueued_same_thread_noop (w : World)
    (a : QskMetaInvokable) (o : QObject) (args : List VoidPtr)
    (hk : a.m_type = InvokableType.MetaMethod ∨
      a.m_type = InvokableType.MetaProperty)
    (ht : o.thread = w.currentThread) :
    a.invoke w (some o) args Qt.BlockingQueuedConnection = [] := by
  have key : ∀ (metaObject : Nat) (call : Call) (offset index : Nat)
      (xs : List VoidPtr),
      qskInvokeMetaCall w (some o) metaObject call offset index xs
        Qt.BlockingQueuedConnection = [] := by
    intro metaObject call offset index xs
    simp [qskInvokeMetaCall, Qt.BlockingQueuedConnection, Qt.AutoConnection, ht]
  unfold QskMetaInvokable.invoke
  split
  · rfl
  · rcases hk with hk | hk <;> rw [hk] <;> simp only
    · unfold qskInvokeMetaMethod
      split
      · rfl
      · split
        · exact key _ _ _ _ _
        · rfl
    · unfold qskInvokeMetaPropertyWrite
      split
      · rfl
      · split
        · exact key _ _ _ _ _
        · rfl

/-- Witness of C5: the identity of an own property and a target owned by the
calling thread. -/
theorem invoke_blockingQueued_same_thread_noop_witness :
    (ownPropertyIdentity.m_type = InvokableType.MetaMethod ∨
        ownPropertyIdentity.m_type = InvokableType.MetaProperty) ∧
      (QObject.mk 5 0).thread = exampleWorld.currentThread ∧
      ownPropertyIdentity.invoke exampleWorld (some ⟨5, 0⟩)
        [VoidPtr.null, VoidPtr.caller 7] Qt.BlockingQueuedConnection = [] :=
  ⟨Or.inr rfl, rfl,
    invoke_blockingQueued_same_thread_noop exampleWorld ownPropertyIdentity
      ⟨5, 0⟩ [VoidPtr.null, VoidPtr.caller 7] (Or.inr rfl) rfl⟩

/-- C6, amended: for a non-null Member or Property identity whose index is
not below the offset of its descriptor and is below `65536`, a Direct
`invoke` on a live target calls the static member mechanism of the
descriptor exactly once and posts nothing; the call gets the target, the
call kind of the identity, the local index (index minus offset) and, for a
Member, the argument array of the caller, for a Property, that array from
slot 1 on. -/
theorem invoke_direct_calls_once (w : World) (a : QskMetaInvokable) (p : Nat)
    (o : QObject) (args : List VoidPtr)
    (hk : a.m_type = InvokableType.MetaMethod ∨
      a.m_type = InvokableType.MetaProperty)
    (hp : a.metaObject = some p)
    (hnull : a.isNull w = false)
    (hoff : (if a.m_type = InvokableType.MetaMethod then
        (w.metaObject p).methodOffset
      else (w.metaObject p).propertyOffset) ≤ a.index)
    (h16 : a.index < 65536) :
    ∃ k : Nat,
      (k : Int) = a.index -
        (if a.m_type = InvokableType.MetaMethod then
          (w.metaObject p).methodOffset
        else (w.metaObject p).propertyOffset) ∧
      a.invoke w (some o) args Qt.DirectConnection =
        [Effect.staticMetacall p o
          (if a.m_type = InvokableType.MetaMethod then Call.InvokeMetaMethod
            else Call.WriteProperty)
          k
          (if a.m_type = InvokableType.MetaMethod then args
            else args.drop 1)] := by
  obtain ⟨q, hq, h0, hm, hpr⟩ := metaObject_of_not_isNull w a hk hnull
  rw [hp] at hq
  cases hq
  rcases hk with hk | hk
  · simp only [hk, if_true] at hoff ⊢
    have hc := hm hk
    have hoff0 : 0 ≤ (w.metaObject p).methodOffset := by
      unfold QMetaObject.methodOffset
      exact Int.ofNat_nonneg _
    refine ⟨toUShort (a.index - (w.metaObject p).methodOffset),
      toUShort_of_lt _ (by omega) (by omega), ?_⟩
    simp [QskMetaInvokable.invoke, hnull, hk, hp, qskInvokeMetaMethod, h0, hc,
      qskInvokeMetaCall, Qt.DirectConnection, Qt.AutoConnection]
  · have hne : ¬ (InvokableType.MetaProperty = InvokableType.MetaMethod) := by
      decide
    simp only [hk, hne, if_false] at hoff ⊢
    have hc := hpr hk
    have hoff0 : 0 ≤ (w.metaObject p).propertyOffset := by
      unfold QMetaObject.propertyOffset
      exact Int.ofNat_nonneg _
    refine ⟨toUShort (a.index - (w.metaObject p).propertyOffset),
      toUShort_of_lt _ (by omega) (by omega), ?_⟩
    simp [QskMetaInvokable.invoke, hnull, hk, hp, qskInvokeMetaPropertyWrite,
      h0, hc, qskInvokeMetaCall, Qt.DirectConnection, Qt.AutoConnection]

/-- Witness of C6: a Direct write through the identity of an own
property. -/
theorem invoke_direct_calls_once_witness :
    (ownPropertyIdentity.m_type = InvokableType.MetaMethod ∨
        ownPropertyIdentity.m_type = InvokableType.MetaProperty) ∧
      ownPropertyIdentity.metaObject = some 1 ∧
      ownPropertyIdentity.isNull exampleWorld = false ∧
      (if ownPropertyIdentity.m_type = InvokableType.MetaMethod then
          (exampleWorld.metaObject 1).methodOffset
        else (exampleWorld.metaObject 1).propertyOffset)
        ≤ ownPropertyIdentity.index ∧
      ownPropertyIdentity.index < 65536 ∧
      ∃ k : Nat,
        (k : Int) = ownPropertyIdentity.index -
          (if ownPropertyIdentity.m_type = InvokableType.MetaMethod then
            (exampleWorld.metaObject 1).methodOffset
          else (exampleWorld.metaObject 1).propertyOffset) ∧
        ownPropertyIdentity.invoke exampleWorld (some ⟨5, 0⟩)
            [VoidPtr.null, VoidPtr.caller 7] Qt.DirectConnection =
          [Effect.staticMetacall 1 ⟨5, 0⟩
            (if ownPropertyIdentity.m_type = InvokableType.MetaMethod then
              Call.InvokeMetaMethod
            else Call.WriteProperty)
            k
            (if ownPropertyIdentity.m_type = InvokableType.MetaMethod then
              [VoidPtr.null, VoidPtr.caller 7]
            else [VoidPtr.null, VoidPtr.caller 7].drop 1)] :=
  ⟨Or.inr rfl, rfl, by decide, by decide, by decide,
    invoke_direct_calls_once exampleWorld ownPropertyIdentity 1 ⟨5, 0⟩
      [VoidPtr.null, VoidPtr.caller 7] (Or.inr rfl) rfl (by decide)
      (by decide) (by decide)⟩

/-- Counterexample to C6 as stated.  A Direct write through the identity of
an own property hands the mechanism the array of the caller from slot 1
on, not the array itself; and a Direct call through a non-null Member
identity whose index lies below the method offset passes index `65535`,
not the index minus the offset, which is `-1`. -/
theorem invoke_direct_counterexample :
    (ownPropertyIdentity.isNull exampleWorld = false ∧
      ownPropertyIdentity.invoke exampleWorld (some ⟨5, 0⟩)
          [VoidPtr.null, VoidPtr.caller 7] Qt.DirectConnection =
        [Effect.staticMetacall 1 ⟨5, 0⟩ Call.WriteProperty 0
          [VoidPtr.caller 7]] ∧
      ownPropertyIdentity.invoke exampleWorld (some ⟨5, 0⟩)
          [VoidPtr.null, VoidPtr.caller 7] Qt.DirectConnection ≠
        [Effect.staticMetacall 1 ⟨5, 0⟩ Call.WriteProperty 0
          [VoidPtr.null, VoidPtr.caller 7]]) ∧
    (inheritedMethodIdentity.isNull exampleWorld = false ∧
      inheritedMethodIdentity.invoke exampleWorld (some ⟨5, 0⟩)
          [VoidPtr.null, VoidPtr.caller 7] Qt.DirectConnection =
        [Effect.staticMetacall 1 ⟨5, 0⟩ Call.InvokeMetaMethod 65535
          [VoidPtr.null, VoidPtr.caller 7]] ∧
      inheritedMethodIdentity.index
          - (exampleWorld.metaObject 1).methodOffset = -1) := by
  decide

/-! ## Envelopes -/

/-- C7: for a non-null Member identity whose method has `N` parameters, a
Queued `invoke` on a live target with slots `1..N` of the argument array
non-null calls nothing inline and posts exactly one envelope to the
target; the envelope has no semaphore and `N + 1` slots, slot 0 holds the
null type id and a null value, and slot `i` in `1..N` holds the type id of
parameter `i - 1` and a clone, by that type id, of argument `i` of the
caller.  The identity is one that a constructor builds: a constructor
stores the enclosing descriptor of a method together with its method
index, which is the method offset of that descriptor plus the index of
the method among its own (`ofMethod_index_not_below_offset`), so the index
is not below the method offset; and it fits the `ushort` in which Qt keeps
the offset and the relative index of a method. -/
theorem invoke_queued_member_envelope (w : World) (a : QskMetaInvokable) (p : Nat)
    (o : QObject) (args : List VoidPtr)
    (hk : a.m_type = InvokableType.MetaMethod)
    (hp : a.metaObject = some p)
    (hnull : a.isNull w = false)
    (hoff : (w.metaObject p).methodOffset ≤ a.index)
    (h16 : a.index < 65536)
    (hargs : ∀ i : Nat, 1 ≤ i →
      i ≤ ((w.metaObject p).method a.index).parameterCount →
      args.getD i VoidPtr.null ≠ VoidPtr.null) :
    ∃ e : MetaCallEvent,
      a.invoke w (some o) args Qt.QueuedConnection = [Effect.postEvent o e] ∧
      e.semaphore = false ∧
      e.nargs = ((w.metaObject p).method a.index).parameterCount + 1 ∧
      e.types.length = ((w.metaObject p).method a.index).parameterCount + 1 ∧
      e.args.length = ((w.metaObject p).method a.index).parameterCount + 1 ∧
      e.types[0]? = some QMetaType.UnknownType ∧
      e.args[0]? = some VoidPtr.null ∧
      ∀ i : Nat, 1 ≤ i →
        i ≤ ((w.metaObject p).method a.index).parameterCount →
        e.types[i]? = some
          (((w.metaObject p).method a.index).parameterType ((i : Int) - 1)) ∧
        e.args[i]? = some (VoidPtr.created
          (((w.metaObject p).method a.index).parameterType ((i : Int) - 1))
          (args.getD i VoidPtr.null)) := by
  obtain ⟨q, hq, h0, hm, -⟩ :=
    metaObject_of_not_isNull w a (Or.inl hk) hnull
  rw [hp] at hq
  cases hq
  have hc := hm hk
  have hoff0 : 0 ≤ (w.metaObject p).methodOffset := by
    unfold QMetaObject.methodOffset
    exact Int.ofNat_nonneg _
  have e1 : ((toUShort (w.metaObject p).methodOffset : Nat) : Int)
      = (w.metaObject p).methodOffset :=
    toUShort_of_lt _ hoff0 (by omega)
  have e2 : ((toUShort (a.index - (w.metaObject p).methodOffset) : Nat) : Int)
      = a.index - (w.metaObject p).methodOffset :=
    toUShort_of_lt _ (by omega) (by omega)
  have e3 : ((toUShort (w.metaObject p).methodOffset : Nat) : Int) +
      ((toUShort (a.index - (w.metaObject p).methodOffset) : Nat) : Int)
      = a.index := by
    rw [e1, e2]; omega
  generalize hN : ((w.metaObject p).method a.index).parameterCount = N
    at hargs ⊢
  obtain ⟨s1, s2, s3, s4, s5⟩ :=
    marshalArguments_spec ((w.metaObject p).method a.index) args N 1
      ((List.replicate (N + 1) QMetaType.UnknownType).set 0
        QMetaType.UnknownType)
      ((List.replicate (N + 1) VoidPtr.null).set 0 VoidPtr.null)
      (fun j hj1 hj2 => hargs j hj1 (by omega))
  refine ⟨MetaCallEvent.mk Call.InvokeMetaMethod p
      (toUShort (w.metaObject p).methodOffset)
      (toUShort (a.index - (w.metaObject p).methodOffset))
      (N + 1)
      (marshalArguments ((w.metaObject p).method a.index) args N 1
        ((List.replicate (N + 1) QMetaType.UnknownType).set 0
          QMetaType.UnknownType)
        ((List.replicate (N + 1) VoidPtr.null).set 0 VoidPtr.null)).1
      (marshalArguments ((w.metaObject p).method a.index) args N 1
        ((List.replicate (N + 1) QMetaType.UnknownType).set 0
          QMetaType.UnknownType)
        ((List.replicate (N + 1) VoidPtr.null).set 0 VoidPtr.null)).2.1
      false, ?_, ?_⟩
  · simp only [QskMetaInvokable.invoke, hnull, hk, hp, qskInvokeMetaMethod]
    simp only [h0, hc, ge_iff_le, and_self, if_true, Bool.false_eq_true,
      if_false]
    simp only [qskInvokeMetaCall, Qt.QueuedConnection, Qt.AutoConnection,
      e3, hN, MetaCallEvent.withArgc, Nat.add_sub_cancel]
    simp only [show (2 &&& 3 : Nat) = 2 from rfl, if_true]
    simp only [show ¬ ((2 : Nat) = 0) by decide, if_false, s1, if_true]
  · simp only
    refine ⟨trivial, trivial, ?_, ?_, ?_, ?_, ?_⟩
    · rw [s2]; simp
    · rw [s3]; simp
    · rw [(s4 0 (by omega)).1]; simp
    · rw [(s4 0 (by omega)).2]; simp
    · intro i hi1 hi2
      exact s5 i hi1 (by omega) (by simp; omega) (by simp; omega)

/-- Witness of C7: the identity of the own method, which has two
parameters. -/
theorem invoke_queued_member_envelope_witness :
    ownMethodIdentity.m_type = InvokableType.MetaMethod ∧
      ownMethodIdentity.metaObject = some 1 ∧
      ownMethodIdentity.isNull exampleWorld = false ∧
      (exampleWorld.metaObject 1).methodOffset ≤ ownMethodIdentity.index ∧
      ownMethodIdentity.index < 65536 ∧
      (∀ i : Nat, 1 ≤ i →
        i ≤ ((exampleWorld.metaObject 1).method
          ownMethodIdentity.index).parameterCount →
        [VoidPtr.null, VoidPtr.caller 7, VoidPtr.caller 8].getD i
          VoidPtr.null ≠ VoidPtr.null) ∧
      ∃ e : MetaCallEvent,
        ownMethodIdentity.invoke exampleWorld (some ⟨5, 1⟩)
            [VoidPtr.null, VoidPtr.caller 7, VoidPtr.caller 8]
            Qt.QueuedConnection = [Effect.postEvent ⟨5, 1⟩ e] ∧
        e.semaphore = false ∧
        e.nargs = ((exampleWorld.metaObject 1).method
          ownMethodIdentity.index).parameterCount + 1 ∧
        e.types.length = ((exampleWorld.metaObject 1).method
          ownMethodIdentity.index).parameterCount + 1 ∧
        e.args.length = ((exampleWorld.metaObject 1).method
          ownMethodIdentity.index).parameterCount + 1 ∧
        e.types[0]? = some QMetaType.UnknownType ∧
        e.args[0]? = some VoidPtr.null ∧
        ∀ i : Nat, 1 ≤ i →
          i ≤ ((exampleWorld.metaObject 1).method
            ownMethodIdentity.index).parameterCount →
          e.types[i]? = some
            (((exampleWorld.metaObject 1).method
              ownMethodIdentity.index).parameterType ((i : Int) - 1)) ∧
          e.args[i]? = some (VoidPtr.created
            (((exampleWorld.metaObject 1).method
              ownMethodIdentity.index).parameterType ((i : Int) - 1))
            ([VoidPtr.null, VoidPtr.caller 7, VoidPtr.caller 8].getD i
              VoidPtr.null)) := by
  have hcount : ((exampleWorld.metaObject 1).method
      ownMethodIdentity.index).parameterCount = 2 := by decide
  have hargs : ∀ i : Nat, 1 ≤ i →
      i ≤ ((exampleWorld.metaObject 1).method
        ownMethodIdentity.index).parameterCount →
      [VoidPtr.null, VoidPtr.caller 7, VoidPtr.caller 8].getD i
        VoidPtr.null ≠ VoidPtr.null := by
    intro i h1 h2
    rw [hcount] at h2
    interval_cases i <;> decide
  exact ⟨rfl, rfl, by decide, by decide, by decide, hargs,
    invoke_queued_member_envelope exampleWorld ownMethodIdentity 1 ⟨5, 1⟩
      [VoidPtr.null, VoidPtr.caller 7, VoidPtr.caller 8] rfl rfl (by decide)
      (by decide) (by decide) hargs⟩

/-- C8, amended: for a non-null Member or Property identity and a live
target owned by another thread than the calling one, a BlockingQueued
`invoke` builds an envelope with a semaphore that carries the argument
array of the caller itself (for a Property, from slot 1 on) and allocates
no slots of its own, posts it to the target and then acquires the
semaphore. -/
theorem invoke_blockingQueued_envelope (w : World)
    (a : QskMetaInvokable) (o : QObject) (args : List VoidPtr)
    (hk : a.m_type = InvokableType.MetaMethod ∨
      a.m_type = InvokableType.MetaProperty)
    (hnull : a.isNull w = false)
    (ht : o.thread ≠ w.currentThread) :
    ∃ e : MetaCallEvent,
      a.invoke w (some o) args Qt.BlockingQueuedConnection =
        [Effect.postEvent o e, Effect.semaphoreAcquire] ∧
      e.semaphore = true ∧
      e.m_call = (if a.m_type = InvokableType.MetaMethod then
        Call.InvokeMetaMethod else Call.WriteProperty) ∧
      e.nargs = 0 ∧
      e.types = [] ∧
      e.args = (if a.m_type = InvokableType.MetaMethod then args
        else args.drop 1) := by
  obtain ⟨p, hp, h0, hm, hpr⟩ := metaObject_of_not_isNull w a hk hnull
  rcases hk with hk | hk
  · have hc := hm hk
    refine ⟨MetaCallEvent.withArgs Call.InvokeMetaMethod p
      (toUShort (w.metaObject p).methodOffset)
      (toUShort (a.index - (w.metaObject p).methodOffset)) args true,
      ?_, ?_⟩
    · simp [QskMetaInvokable.invoke, hnull, hk, hp, qskInvokeMetaMethod, h0,
        hc, qskInvokeMetaCall, Qt.BlockingQueuedConnection,
        Qt.AutoConnection, ht]
    · simp [MetaCallEvent.withArgs, hk]
  · have hc := hpr hk
    refine ⟨MetaCallEvent.withArgs Call.WriteProperty p
      (toUShort (w.metaObject p).propertyOffset)
      (toUShort (a.index - (w.metaObject p).propertyOffset))
      (args.drop 1) true, ?_, ?_⟩
    · simp [QskMetaInvokable.invoke, hnull, hk, hp,
        qskInvokeMetaPropertyWrite, h0, hc, qskInvokeMetaCall,
        Qt.BlockingQueuedConnection, Qt.AutoConnection, ht]
    · simp [MetaCallEvent.withArgs, hk]

/-- Witness of C8: the identity of the own method and a target owned by
thread `1`, the calling thread being thread `0`. -/
theorem invoke_blockingQueued_envelope_witness :
    (ownMethodIdentity.m_type = InvokableType.MetaMethod ∨
        ownMethodIdentity.m_type = InvokableType.MetaProperty) ∧
      ownMethodIdentity.isNull exampleWorld = false ∧
      (QObject.mk 5 1).thread ≠ exampleWorld.currentThread ∧
      ∃ e : MetaCallEvent,
        ownMethodIdentity.invoke exampleWorld (some ⟨5, 1⟩)
            [VoidPtr.null, VoidPtr.caller 7, VoidPtr.caller 8]
            Qt.BlockingQueuedConnection =
          [Effect.postEvent ⟨5, 1⟩ e, Effect.semaphoreAcquire] ∧
        e.semaphore = true ∧
        e.m_call = (if ownMethodIdentity.m_type = InvokableType.MetaMethod
          then Call.InvokeMetaMethod else Call.WriteProperty) ∧
        e.nargs = 0 ∧
        e.types = [] ∧
        e.args = (if ownMethodIdentity.m_type = InvokableType.MetaMethod
          then [VoidPtr.null, VoidPtr.caller 7, VoidPtr.caller 8]
          else [VoidPtr.null, VoidPtr.caller 7, VoidPtr.caller 8].drop 1) :=
  ⟨Or.inl rfl, by decide, by decide,
    invoke_blockingQueued_envelope exampleWorld ownMethodIdentity ⟨5, 1⟩
      [VoidPtr.null, VoidPtr.caller 7, VoidPtr.caller 8] (Or.inl rfl)
      (by decide) (by decide)⟩

/-- Counterexample to C8 as stated.  The envelope of a BlockingQueued
`invoke` holds the argument array of the caller: its slot 1 is the pointer
`caller 7` that the caller passed, which is no clone of any type id. -/
theorem invoke_blockingQueued_counterexample :
    ownMethodIdentity.isNull exampleWorld = false ∧
      ownMethodIdentity.invoke exampleWorld (some ⟨5, 1⟩)
          [VoidPtr.null, VoidPtr.caller 7, VoidPtr.caller 8]
          Qt.BlockingQueuedConnection =
        [Effect.postEvent ⟨5, 1⟩
          { m_call := Call.InvokeMetaMethod, m_callFunction := 1,
            offset := 1, m_index := 0, nargs := 0, types := [],
            args := [VoidPtr.null, VoidPtr.caller 7, VoidPtr.caller 8],
            semaphore := true },
          Effect.semaphoreAcquire] ∧
      ∀ type : Int,
        VoidPtr.caller 7 ≠ VoidPtr.created type (VoidPtr.caller 7) := by
  refine ⟨by decide, by decide, ?_⟩
  intro type h
  cases h

/-! ## Equality and shared records -/

/-- C9: `a == b` holds exactly when the kind tags agree and, for Member or
Property, the descriptor pointers and the indices agree, for Function, the
record pointers agree, for Invalid, always.  In particular a Member and a
Property identity with the same descriptor and index are unequal, and two
Function identities are equal only when they hold the same record. -/
theorem eq_iff (a b : QskMetaInvokable) (mo : Option Nat) (i : Int)
    (f g f' g' mo' mo'' : Option Nat) (i' i'' : Int) :
    (a.eq b = true ↔
      a.m_type = b.m_type ∧
        (((a.m_type = InvokableType.MetaMethod ∨
              a.m_type = InvokableType.MetaProperty) ∧
            a.metaObject = b.metaObject ∧ a.index = b.index) ∨
          (a.m_type = InvokableType.MetaFunction ∧
            a.functionCall = b.functionCall) ∨
          a.m_type = InvokableType.Invalid)) ∧
    QskMetaInvokable.eq ⟨InvokableType.MetaMethod, mo, i, f'⟩
      ⟨InvokableType.MetaProperty, mo, i, g'⟩ = false ∧
    QskMetaInvokable.eq ⟨InvokableType.MetaFunction, mo', i', f⟩
      ⟨InvokableType.MetaFunction, mo'', i'', g⟩ = decide (f = g) := by
  refine ⟨?_, ?_, ?_⟩
  · obtain ⟨ta, moa, ia, fa⟩ := a
    obtain ⟨tb, mob, ib, fb⟩ := b
    cases ta <;> cases tb <;> simp [QskMetaInvokable.eq]
  · simp [QskMetaInvokable.eq]
  · simp [QskMetaInvokable.eq]

/-- C10: for a Function identity `a` holding a live record of count
`c >= 1`, copy construction raises the count to `c + 1` and gives an
identity equal to `a`; destroying `a` afterwards lowers the count back to
`c` and does not release the record; the copy is not null and its
`invoke` forwards to the same record. -/
theorem copy_then_destroy (w : World) (a : QskMetaInvokable) (h : Records)
    (p : Nat) (c : Int) (object : Option QObject) (args : List VoidPtr)
    (connectionType : Nat)
    (hk : a.m_type = InvokableType.MetaFunction)
    (hp : a.functionCall = some p)
    (hc : h p = some c)
    (hpos : 1 ≤ c) :
    (a.copyConstruct h).2 p = some (c + 1) ∧
    (a.copyConstruct h).1.eq a = true ∧
    a.destruct (a.copyConstruct h).2 p = some c ∧
    (a.copyConstruct h).1.isNull w = false ∧
    (a.copyConstruct h).1.invoke w object args connectionType =
      [Effect.functionInvoke p object args connectionType] := by
  obtain ⟨t, mo, idx, fc⟩ := a
  simp only at hk hp
  subst hk hp
  have hne : ¬ (c + 1 - 1 = 0) := by omega
  have hne0 : ¬ (c = 0) := by omega
  simp [QskMetaInvokable.copyConstruct, QskMetaInvokable.destruct,
    QskMetaInvokable.eq, QskMetaInvokable.isNull, QskMetaInvokable.invoke,
    Function.ref, Function.deref, FunctionCall.ref,
    FunctionCall.destroyIfLastRef, hc, hne, hne0]

/-- Witness of C10: the only holder of the record at address `7`. -/
theorem copy_then_destroy_witness :
    functionIdentity.m_type = InvokableType.MetaFunction ∧
      functionIdentity.functionCall = some 7 ∧
      exampleRecords 7 = some 1 ∧
      (1 : Int) ≤ 1 ∧
      (functionIdentity.copyConstruct exampleRecords).2 7 = some (1 + 1) ∧
      (functionIdentity.copyConstruct exampleRecords).1.eq functionIdentity
        = true ∧
      functionIdentity.destruct
        (functionIdentity.copyConstruct exampleRecords).2 7 = some 1 ∧
      (functionIdentity.copyConstruct exampleRecords).1.isNull exampleWorld
        = false ∧
      (functionIdentity.copyConstruct exampleRecords).1.invoke exampleWorld
          (some ⟨5, 0⟩) [VoidPtr.null] Qt.DirectConnection =
        [Effect.functionInvoke 7 (some ⟨5, 0⟩) [VoidPtr.null]
          Qt.DirectConnection] :=
  ⟨rfl, rfl, rfl, by decide,
    copy_then_destroy exampleWorld functionIdentity exampleRecords 7 1
      (some ⟨5, 0⟩) [VoidPtr.null] Qt.DirectConnection rfl rfl rfl
      (by decide)⟩

/-! ## Index search -/

/-- The index search finds nothing when no entry satisfies the test. -/
theorem lastIndex_of_forall_false {α : Type} (p : α → Bool) (l : List α)
    (h : ∀ x ∈ l, p x = false) : lastIndex p l = -1 := by
  induction l with
  | nil => rfl
  | cons x xs ih =>
    have hx : p x = false := h x (List.mem_cons_self x xs)
    have hxs : lastIndex p xs = -1 :=
      ih (fun y hy => h y (List.mem_cons_of_mem x hy))
    simp [lastIndex, hxs, hx]

/-! ## Assignment, reset and construction -/

/-- C11: after the assignment `a = b` of two distinct identity objects,
`a == b` holds, and for every live record `r` of count `c`: when only `a`
held it, it has been decremented once, and released if that gave zero;
when only `b` holds it, it has been incremented once; when both hold it,
it has been decremented and incremented once and is `c` again; when
neither holds it, it is unchanged.  Two distinct objects that hold the
same record account for a count of at least `2`.  The identity `b` is
passed by value and is not changed. -/
theorem assign_counts (a b : QskMetaInvokable) (h : Records) (r : Nat)
    (c : Int) (hc : h r = some c)
    (hshared : a.m_type = InvokableType.MetaFunction →
      a.functionCall = some r →
      b.m_type = InvokableType.MetaFunction →
      b.functionCall = some r → 2 ≤ c) :
    (a.assign b h).1.eq b = true ∧
    (a.assign b h).2 r =
      (if a.m_type = InvokableType.MetaFunction ∧ a.functionCall = some r then
        if b.m_type = InvokableType.MetaFunction ∧ b.functionCall = some r
        then some c
        else if c - 1 = 0 then none else some (c - 1)
      else
        if b.m_type = InvokableType.MetaFunction ∧ b.functionCall = some r
        then some (c + 1)
        else some c) := by
  obtain ⟨ta, moa, ia, fa⟩ := a
  obtain ⟨tb, mob, ib, fb⟩ := b
  refine ⟨?_, ?_⟩
  · cases tb <;> simp [QskMetaInvokable.assign, QskMetaInvokable.eq]
  · simp only at hshared
    have hcomm : ∀ x : Nat, (x = r) = (r = x) := fun x =>
      propext ⟨fun e => e.symm, fun e => e.symm⟩
    cases ta <;> cases tb <;> cases fa <;> cases fb <;>
      simp [QskMetaInvokable.assign, Function.ref, Function.deref,
        FunctionCall.ref, FunctionCall.destroyIfLastRef, hc, hcomm]
    rename_i pa pb
    by_cases h1 : r = pa
    · subst h1
      by_cases h2 : r = pb
      · subst h2
        have h3 : 2 ≤ c := hshared rfl rfl rfl rfl
        have h4 : ¬ (c - 1 = 0) := by omega
        simp [h4]
      · simp [h2]
    · by_cases h2 : r = pb
      · subst h2
        have h3 : ¬ (r = pa) := h1
        have h4 : ¬ (pa = r) := fun e => h1 e.symm
        simp [h3, h4]
      · simp [h1, h2]

/-- Witness of C11: an identity holding the record at address `8` is
assigned one holding the record at address `7`, whose count is `2`. -/
theorem assign_counts_witness :
    sharedRecords 7 = some 2 ∧
    (secondFunctionIdentity.m_type = InvokableType.MetaFunction →
      secondFunctionIdentity.functionCall = some 7 →
      functionIdentity.m_type = InvokableType.MetaFunction →
      functionIdentity.functionCall = some 7 → (2 : Int) ≤ 2) ∧
    (secondFunctionIdentity.assign functionIdentity sharedRecords).1.eq
      functionIdentity = true ∧
    (secondFunctionIdentity.assign functionIdentity sharedRecords).2 7 =
      (if secondFunctionIdentity.m_type = InvokableType.MetaFunction ∧
          secondFunctionIdentity.functionCall = some 7 then
        if functionIdentity.m_type = InvokableType.MetaFunction ∧
          functionIdentity.functionCall = some 7
        then some 2
        else if (2 : Int) - 1 = 0 then none else some (2 - 1)
      else
        if functionIdentity.m_type = InvokableType.MetaFunction ∧
          functionIdentity.functionCall = some 7
        then some (2 + 1)
        else some 2) :=
  ⟨rfl, fun _ _ _ _ => by decide,
    assign_counts secondFunctionIdentity functionIdentity sharedRecords 7 2
      rfl (fun _ _ _ _ => by decide)⟩

/-- C12: `reset` leaves an identity Invalid, hence null and equal to a
default constructed identity; a record the identity held as a Function
identity is decremented exactly once, and released if that gave zero, and
no other count changes; a second `reset` and the destructor change no
count. -/
theorem reset_spec (w : World) (a : QskMetaInvokable) (h : Records)
    (r : Nat) :
    (a.reset h).1.m_type = InvokableType.Invalid ∧
    (a.reset h).1.isNull w = true ∧
    (a.reset h).1.eq {} = true ∧
    (a.reset h).2 r =
      (if a.m_type = InvokableType.MetaFunction ∧ a.functionCall = some r then
        (h r).bind (fun c => if c - 1 = 0 then none else some (c - 1))
      else h r) ∧
    ((a.reset h).1.reset (a.reset h).2).2 = (a.reset h).2 ∧
    (a.reset h).1.destruct (a.reset h).2 = (a.reset h).2 := by
  obtain ⟨t, mo, i, f⟩ := a
  refine ⟨rfl, rfl, rfl, ?_, rfl, rfl⟩
  cases t <;> cases f <;>
    simp [QskMetaInvokable.reset, Function.deref,
      FunctionCall.destroyIfLastRef]
  rename_i p
  by_cases h1 : r = p
  · subst h1
    cases hr : h r <;> simp
  · have h2 : ¬ (p = r) := fun e => h1 e.symm
    simp [h1, h2]

/-- C13: when the descriptor is absent, the name is absent, or no method of
the descriptor resolves the name (no signal for a name with the signal
indicator, no slot for a name with the slot indicator, no method at all
otherwise), the identity constructed from the descriptor and the name, and
the one constructed from an object of that descriptor and the name, are
null. -/
theorem construct_unresolved_isNull (w : World) (owner : Option Nat)
    (object : Option QObject) (name : Option String)
    (hobject : object.map w.objectMetaObject = owner)
    (hunresolved : owner = none ∨ name = none ∨
      ∃ p s, owner = some p ∧ name = some s ∧
        (if s.data.head? = some '2' then
          ∀ m ∈ (w.metaObject p).superMethods ++ (w.metaObject p).ownMethods,
            ¬ (m.methodType = MethodType.Signal ∧
              m.methodSignature = w.normalizedSignature (String.mk s.data.tail))
        else if s.data.head? = some '1' then
          ∀ m ∈ (w.metaObject p).superMethods ++ (w.metaObject p).ownMethods,
            ¬ (m.methodType = MethodType.Slot ∧
              m.methodSignature = w.normalizedSignature (String.mk s.data.tail))
        else
          ∀ m ∈ (w.metaObject p).superMethods ++ (w.metaObject p).ownMethods,
            m.methodSignature ≠ w.normalizedSignature s)) :
    (QskMetaInvokable.ofMetaObjectName w owner name).isNull w = true ∧
    (QskMetaInvokable.ofObjectName w object name).isNull w = true := by
  have key : qskMetaMethod w owner name = {} := by
    rcases hunresolved with h | h | ⟨p, s, hp, hs, h⟩
    · subst h
      rfl
    · subst h
      cases owner <;> rfl
    · subst hp hs
      simp only [qskMetaMethod]
      by_cases c1 : s.data.head? = some '2'
      · rw [if_pos c1] at h
        rw [if_pos c1]
        have : (w.metaObject p).indexOfSignal
            (w.normalizedSignature (String.mk s.data.tail)) = -1 := by
          unfold QMetaObject.indexOfSignal
          apply lastIndex_of_forall_false
          intro m hm
          have := h m hm
          simp only [Bool.and_eq_false_iff, decide_eq_false_iff_not]
          tauto
        simp [this]
      · rw [if_neg c1] at h
        rw [if_neg c1]
        by_cases c2 : s.data.head? = some '1'
        · rw [if_pos c2] at h
          rw [if_pos c2]
          have : (w.metaObject p).indexOfSlot
              (w.normalizedSignature (String.mk s.data.tail)) = -1 := by
            unfold QMetaObject.indexOfSlot
            apply lastIndex_of_forall_false
            intro m hm
            have := h m hm
            simp only [Bool.and_eq_false_iff, decide_eq_false_iff_not]
            tauto
          simp [this]
        · rw [if_neg c2] at h
          rw [if_neg c2]
          have : (w.metaObject p).indexOfMethod (w.normalizedSignature s)
              = -1 := by
            unfold QMetaObject.indexOfMethod
            apply lastIndex_of_forall_false
            intro m hm
            have := h m hm
            simpa using this
          simp [this]
  have key2 : qskMetaMethodOfObject w object name = {} := by
    cases object with
    | none => rfl
    | some o =>
      simp only [Option.map] at hobject
      simp only [qskMetaMethodOfObject, hobject, key]
  simp [QskMetaInvokable.ofMetaObjectName, QskMetaInvokable.ofObjectName,
    key, key2, QskMetaInvokable.ofMethod, QskMetaInvokable.isNull]

/-- Witness of C13: the signature of a signal of `QObject`, carrying the
slot indicator. -/
theorem construct_unresolved_isNull_witness :
    (some (QObject.mk 5 0)).map qobjectWorld.objectMetaObject = some 0 ∧
    (QskMetaInvokable.ofMetaObjectName qobjectWorld (some 0)
      (some "1objectNameChanged(QString)")).isNull qobjectWorld = true ∧
    (QskMetaInvokable.ofObjectName qobjectWorld (some ⟨5, 0⟩)
      (some "1objectNameChanged(QString)")).isNull qobjectWorld = true :=
  ⟨rfl,
    construct_unresolved_isNull qobjectWorld (some 0) (some ⟨5, 0⟩)
      (some "1objectNameChanged(QString)") rfl
      (Or.inr (Or.inr ⟨0, "1objectNameChanged(QString)", rfl, rfl,
        by decide⟩))⟩

/-- C14, amended: constructing an identity from a closure handle whose
record is live with count `c` gives a Function identity holding the record
of the handle, shared with it, and raises the count of that record to
`c + 1`; no other count changes. -/
theorem ofFunction_shares_record (function : QskMetaFunction) (h : Records)
    (p : Nat) (c : Int) (r : Nat)
    (hp : function.functionCall = some p) (hc : h p = some c) :
    (QskMetaInvokable.ofFunction function h).1.m_type
      = InvokableType.MetaFunction ∧
    (QskMetaInvokable.ofFunction function h).1.functionCall
      = function.functionCall ∧
    (QskMetaInvokable.ofFunction function h).2 p = some (c + 1) ∧
    (QskMetaInvokable.ofFunction function h).2 r
      = (if r = p then some (c + 1) else h r) := by
  simp [QskMetaInvokable.ofFunction, hp, Function.ref, FunctionCall.ref, hc]
  by_cases e : r = p
  · subst e
    simp [hc]
  · simp [e]

/-- Witness of C14: a handle on the record at address `7`, of count `1`. -/
theorem ofFunction_shares_record_witness :
    (QskMetaFunction.mk (some 7)).functionCall = some 7 ∧
    exampleRecords 7 = some 1 ∧
    (QskMetaInvokable.ofFunction ⟨some 7⟩ exampleRecords).1.m_type
      = InvokableType.MetaFunction ∧
    (QskMetaInvokable.ofFunction ⟨some 7⟩ exampleRecords).1.functionCall
      = (QskMetaFunction.mk (some 7)).functionCall ∧
    (QskMetaInvokable.ofFunction ⟨some 7⟩ exampleRecords).2 7
      = some (1 + 1) ∧
    (QskMetaInvokable.ofFunction ⟨some 7⟩ exampleRecords).2 8
      = (if 8 = 7 then some (1 + 1) else exampleRecords 8) :=
  ⟨rfl, rfl,
    ofFunction_shares_record ⟨some 7⟩ exampleRecords 7 1 8 rfl rfl⟩

/-- Counterexample to C14 as stated.  The identity constructed from a handle
on the record at address `7`, of count `1`, holds the record of the
handle, and the count after the construction is `2`, not `1`. -/
theorem ofFunction_counterexample :
    exampleRecords 7 = some 1 ∧
    (QskMetaInvokable.ofFunction ⟨some 7⟩ exampleRecords).1.functionCall
      = (QskMetaFunction.mk (some 7)).functionCall ∧
    (QskMetaInvokable.ofFunction ⟨some 7⟩ exampleRecords).2 7 = some 2 ∧
    (QskMetaInvokable.ofFunction ⟨some 7⟩ exampleRecords).2 7 ≠ some 1 := by
  decide

/-! ## Introspection -/

/-- The parts of C15 that hold: for every Property identity
`parameterCount` is `1` and `returnType` is `Void`; for every null
identity `name` is empty; for every null identity that is not of Function
kind `parameterType` is `UnknownType` at every index. -/
theorem introspection_of_null (w : World) (a : QskMetaInvokable) (i : Int) :
    (a.m_type = InvokableType.MetaProperty →
      a.parameterCount w = 1 ∧ a.returnType w = QMetaType.Void) ∧
    (a.isNull w = true → a.name w = "") ∧
    (a.isNull w = true → a.m_type ≠ InvokableType.MetaFunction →
      a.parameterType w i = some QMetaType.UnknownType) := by
  obtain ⟨t, mo, idx, f⟩ := a
  have hm : ∀ p : Nat, (idx < 0 ∨ (w.metaObject p).methodCount ≤ idx) →
      (w.metaObject p).method idx = {} := by
    intro p hn
    have hcond : ¬ (0 ≤ idx ∧ idx < (w.metaObject p).methodCount) := by omega
    simp only [QMetaObject.method, if_neg hcond]
  have hp : ∀ p : Nat, (idx < 0 ∨ (w.metaObject p).propertyCount ≤ idx) →
      (w.metaObject p).property idx = {} := by
    intro p hn
    have hcond : ¬ (0 ≤ idx ∧ idx < (w.metaObject p).propertyCount) := by
      omega
    simp only [QMetaObject.property, if_neg hcond]
  have hempty : ({} : QMetaMethod).parameterType i = QMetaType.UnknownType := by
    unfold QMetaMethod.parameterType
    split
    · rename_i hc
      simp at hc
      omega
    · rfl
  refine ⟨?_, ?_, ?_⟩
  · intro hk
    simp only at hk
    subst hk
    exact ⟨rfl, rfl⟩
  · intro hn
    cases t <;> cases mo <;>
      simp [QskMetaInvokable.isNull] at hn <;>
      simp [QskMetaInvokable.name, QskMetaInvokable.method,
        QskMetaInvokable.property]
    · rw [hm _ hn]
    · rw [hp _ hn]
  · intro hn hf
    cases t <;> cases mo <;>
      simp [QskMetaInvokable.isNull] at hn hf <;>
      simp [QskMetaInvokable.parameterType, QskMetaInvokable.method,
        QskMetaInvokable.property]
    · exact hempty
    · rw [hm _ hn]
      exact hempty
    · rw [hp _ hn]

/-- C15, the failing case: for the null Function identity, whose record is
absent, `parameterType( 0 )` reads through the pointer that
`parameterTypes()` of an empty handle returns; with the null pointer the
read fails, and whatever array that function returned, the read at index
`-1` would be outside it. -/
theorem parameterType_absent_record_fails :
    absentFunctionIdentity.isNull exampleWorld = true ∧
    exampleWorld.functionParameterTypes absentFunctionIdentity.function.functionCall
      = none ∧
    absentFunctionIdentity.parameterType exampleWorld 0 = none ∧
    ¬ ∃ types : Option (List Int), ∀ i : Int,
      absentFunctionIdentity.parameterType
        { exampleWorld with functionParameterTypes := fun _ => types } i
        = some QMetaType.UnknownType := by
  refine ⟨by decide, rfl, rfl, ?_⟩
  rintro ⟨types, h⟩
  have h1 := h (-1)
  cases types <;>
    simp [QskMetaInvokable.parameterType, absentFunctionIdentity] at h1

/-! ## Property envelopes and delivery -/

/-- C16: for a non-null Property identity, a Queued `invoke` on a live
target posts exactly one envelope, without semaphore, with exactly one
slot; the slot holds the value type id of the property and a clone, by
that type id, of slot 1 of the argument array of the caller, the slot that
a Direct write hands to the write mechanism as element 0.  The identity is
one that a constructor builds: a constructor stores the enclosing
descriptor of a property together with its property index, which is the
property offset of that descriptor plus the index of the property among
its own (`ofProperty_index_not_below_offset`), so the index is not below
the property offset; and it fits the `ushort` in which the dispatcher
takes the offset and the relative index. -/
theorem invoke_queued_property_envelope (w : World) (a : QskMetaInvokable)
    (p : Nat) (o : QObject) (args : List VoidPtr)
    (hk : a.m_type = InvokableType.MetaProperty)
    (hp : a.metaObject = some p)
    (hnull : a.isNull w = false)
    (hoff : (w.metaObject p).propertyOffset ≤ a.index)
    (h16 : a.index < 65536) :
    ∃ (e : MetaCallEvent) (k : Nat),
      a.invoke w (some o) args Qt.QueuedConnection = [Effect.postEvent o e] ∧
      e.m_call = Call.WriteProperty ∧
      e.semaphore = false ∧
      e.nargs = 1 ∧
      e.types = [((w.metaObject p).property a.index).userType] ∧
      e.args = [VoidPtr.created ((w.metaObject p).property a.index).userType
        (args.getD 1 VoidPtr.null)] ∧
      a.invoke w (some o) args Qt.DirectConnection =
        [Effect.staticMetacall p o Call.WriteProperty k (args.drop 1)] ∧
      (args.drop 1).getD 0 VoidPtr.null = args.getD 1 VoidPtr.null := by
  obtain ⟨q, hq, h0, -, hpr⟩ :=
    metaObject_of_not_isNull w a (Or.inr hk) hnull
  rw [hp] at hq
  cases hq
  have hc := hpr hk
  have hoff0 : 0 ≤ (w.metaObject p).propertyOffset := by
    unfold QMetaObject.propertyOffset
    exact Int.ofNat_nonneg _
  have e1 : ((toUShort (w.metaObject p).propertyOffset : Nat) : Int)
      = (w.metaObject p).propertyOffset :=
    toUShort_of_lt _ hoff0 (by omega)
  have e2 : ((toUShort (a.index - (w.metaObject p).propertyOffset) : Nat)
      : Int) = a.index - (w.metaObject p).propertyOffset :=
    toUShort_of_lt _ (by omega) (by omega)
  have e3 : ((toUShort (w.metaObject p).propertyOffset : Nat) : Int) +
      ((toUShort (a.index - (w.metaObject p).propertyOffset) : Nat) : Int)
      = a.index := by
    rw [e1, e2]; omega
  have hdrop : (args.drop 1).getD 0 VoidPtr.null = args.getD 1 VoidPtr.null := by
    cases args with
    | nil => rfl
    | cons x xs => cases xs <;> rfl
  refine ⟨MetaCallEvent.mk Call.WriteProperty p
      (toUShort (w.metaObject p).propertyOffset)
      (toUShort (a.index - (w.metaObject p).propertyOffset)) 1
      [((w.metaObject p).property a.index).userType]
      [VoidPtr.created ((w.metaObject p).property a.index).userType
        (args.getD 1 VoidPtr.null)] false,
    toUShort (a.index - (w.metaObject p).propertyOffset),
    ?_, rfl, rfl, rfl, rfl, rfl, ?_, hdrop⟩
  · simp only [QskMetaInvokable.invoke, hnull, hk, hp,
      qskInvokeMetaPropertyWrite]
    simp only [h0, hc, ge_iff_le, and_self, if_true, Bool.false_eq_true,
      if_false]
    simp only [qskInvokeMetaCall, Qt.QueuedConnection, Qt.AutoConnection,
      e3, MetaCallEvent.withArgc, hdrop]
    simp only [show (2 &&& 3 : Nat) = 2 from rfl]
    simp
  · simp [QskMetaInvokable.invoke, hnull, hk, hp, qskInvokeMetaPropertyWrite,
      h0, hc, qskInvokeMetaCall, Qt.DirectConnection, Qt.AutoConnection]

/-- Witness of C16: a Queued write through the identity of the own
property. -/
theorem invoke_queued_property_envelope_witness :
    ownPropertyIdentity.m_type = InvokableType.MetaProperty ∧
    ownPropertyIdentity.metaObject = some 1 ∧
    ownPropertyIdentity.isNull exampleWorld = false ∧
    (exampleWorld.metaObject 1).propertyOffset ≤ ownPropertyIdentity.index ∧
    ownPropertyIdentity.index < 65536 ∧
    ∃ (e : MetaCallEvent) (k : Nat),
      ownPropertyIdentity.invoke exampleWorld (some ⟨5, 1⟩)
          [VoidPtr.null, VoidPtr.caller 7] Qt.QueuedConnection
        = [Effect.postEvent ⟨5, 1⟩ e] ∧
      e.m_call = Call.WriteProperty ∧
      e.semaphore = false ∧
      e.nargs = 1 ∧
      e.types = [((exampleWorld.metaObject 1).property
        ownPropertyIdentity.index).userType] ∧
      e.args = [VoidPtr.created ((exampleWorld.metaObject 1).property
          ownPropertyIdentity.index).userType
        ([VoidPtr.null, VoidPtr.caller 7].getD 1 VoidPtr.null)] ∧
      ownPropertyIdentity.invoke exampleWorld (some ⟨5, 1⟩)
          [VoidPtr.null, VoidPtr.caller 7] Qt.DirectConnection =
        [Effect.staticMetacall 1 ⟨5, 1⟩ Call.WriteProperty k
          ([VoidPtr.null, VoidPtr.caller 7].drop 1)] ∧
      ([VoidPtr.null, VoidPtr.caller 7].drop 1).getD 0 VoidPtr.null
        = [VoidPtr.null, VoidPtr.caller 7].getD 1 VoidPtr.null :=
  ⟨rfl, rfl, by decide, by decide, by decide,
    invoke_queued_property_envelope exampleWorld ownPropertyIdentity 1
      ⟨5, 1⟩ [VoidPtr.null, VoidPtr.caller 7] rfl rfl (by decide)
      (by decide) (by decide)⟩

/-- C17: an envelope that the dispatcher posts, under any connection type,
for a descriptor, call kind, offset and index, when delivered to an object
calls the static member mechanism of that descriptor with that call kind,
that index and the argument slots of the envelope: the call that the
Direct branch makes for the same descriptor, call kind and index on those
arguments. -/
theorem delivery_mirrors_direct (w : World) (r : QObject) (metaObject : Nat)
    (call : Call) (offset index : Nat) (args : List VoidPtr)
    (connectionType : Nat) (receiver : QObject) (e : MetaCallEvent)
    (object : QObject)
    (hposted : Effect.postEvent receiver e ∈
      qskInvokeMetaCall w (some r) metaObject call offset index args
        connectionType) :
    e.placeMetaCall object =
      [Effect.staticMetacall metaObject object call index e.args] ∧
    qskInvokeMetaCall w (some object) metaObject call offset index e.args
      Qt.DirectConnection = e.placeMetaCall object := by
  have hdirect : ∀ xs : List VoidPtr,
      qskInvokeMetaCall w (some object) metaObject call offset index xs
        Qt.DirectConnection =
      [Effect.staticMetacall metaObject object call index xs] := by
    intro xs
    simp [qskInvokeMetaCall, Qt.DirectConnection, Qt.AutoConnection]
  have hplace : e.placeMetaCall object =
      [Effect.staticMetacall metaObject object call index e.args] := by
    unfold qskInvokeMetaCall at hposted
    simp only at hposted
    split at hposted
    · simp at hposted
    · split at hposted
      · simp at hposted
      · simp only [List.mem_cons, Effect.postEvent.injEq, List.mem_singleton,
          reduceCtorEq, or_false, List.not_mem_nil] at hposted
        obtain ⟨-, he⟩ := hposted
        subst he
        rfl
    · split at hposted
      · split at hposted
        · simp only [List.mem_singleton, Effect.postEvent.injEq] at hposted
          obtain ⟨-, he⟩ := hposted
          subst he
          rfl
        · simp at hposted
      · simp only [List.mem_singleton, Effect.postEvent.injEq] at hposted
        obtain ⟨-, he⟩ := hposted
        subst he
        rfl
    · simp at hposted
  exact ⟨hplace, by rw [hdirect, hplace]⟩

/-- Witness of C17: the envelope of a BlockingQueued call to a target of
another thread, delivered to an object. -/
theorem delivery_mirrors_direct_witness :
    Effect.postEvent ⟨5, 1⟩
        (MetaCallEvent.withArgs Call.InvokeMetaMethod 1 1 0
          [VoidPtr.null, VoidPtr.caller 7, VoidPtr.caller 8] true) ∈
      qskInvokeMetaCall exampleWorld (some ⟨5, 1⟩) 1 Call.InvokeMetaMethod
        1 0 [VoidPtr.null, VoidPtr.caller 7, VoidPtr.caller 8]
        Qt.BlockingQueuedConnection ∧
    (MetaCallEvent.withArgs Call.InvokeMetaMethod 1 1 0
        [VoidPtr.null, VoidPtr.caller 7, VoidPtr.caller 8]
        true).placeMetaCall ⟨6, 1⟩ =
      [Effect.staticMetacall 1 ⟨6, 1⟩ Call.InvokeMetaMethod 0
        (MetaCallEvent.withArgs Call.InvokeMetaMethod 1 1 0
          [VoidPtr.null, VoidPtr.caller 7, VoidPtr.caller 8] true).args] ∧
    qskInvokeMetaCall exampleWorld (some ⟨6, 1⟩) 1 Call.InvokeMetaMethod 1 0
        (MetaCallEvent.withArgs Call.InvokeMetaMethod 1 1 0
          [VoidPtr.null, VoidPtr.caller 7, VoidPtr.caller 8] true).args
        Qt.DirectConnection =
      (MetaCallEvent.withArgs Call.InvokeMetaMethod 1 1 0
        [VoidPtr.null, VoidPtr.caller 7, VoidPtr.caller 8]
        true).placeMetaCall ⟨6, 1⟩ :=
  ⟨by decide,
    delivery_mirrors_direct exampleWorld ⟨5, 1⟩ 1 Call.InvokeMetaMethod 1 0
      [VoidPtr.null, VoidPtr.caller 7, VoidPtr.caller 8]
      Qt.BlockingQueuedConnection ⟨5, 1⟩ _ ⟨6, 1⟩ (by decide)⟩

/-! ## Defects -/

/-- C18, the failing case: a Function identity that alone holds the record
at address `7`, of count `1`, is assigned to itself; the identity keeps its
fields, but the record is released: `operator=` gives up the reference
before it takes the new one, and the count reaches zero in between. -/
theorem self_assign_releases_record :
    functionIdentity.m_type = InvokableType.MetaFunction ∧
    functionIdentity.functionCall = some 7 ∧
    exampleRecords 7 = some 1 ∧
    (functionIdentity.assign functionIdentity exampleRecords).1
      = functionIdentity ∧
    (functionIdentity.assign functionIdentity exampleRecords).2 7 = none := by
  decide

/-- C19, the failing case: for the absolute index `0` of an inherited method
(method offset `1`), `qskInvokeMetaMethod` passes offset `1` and index
`65535` to the dispatcher; their sum is `65536`, not `0`, and the method
at `65536` is the invalid method, not the method at `0`.  The same holds
for `qskInvokeMetaPropertyWrite` and the inherited property at index
`0`. -/
theorem inherited_index_wraps :
    (0 : Int) ≤ 0 ∧ (0 : Int) < (exampleWorld.metaObject 1).methodCount ∧
    (0 : Int) < (exampleWorld.metaObject 1).methodOffset ∧
    toUShort (exampleWorld.metaObject 1).methodOffset = 1 ∧
    toUShort (0 - (exampleWorld.metaObject 1).methodOffset) = 65535 ∧
    ((1 : Nat) : Int) + ((65535 : Nat) : Int) ≠ 0 ∧
    (exampleWorld.metaObject 1).method (((1 : Nat) : Int) + ((65535 : Nat) : Int))
      ≠ (exampleWorld.metaObject 1).method 0 ∧
    (∀ (object : Option QObject) (args : List VoidPtr) (connectionType : Nat),
      qskInvokeMetaMethod exampleWorld object (some 1) 0 args connectionType =
        qskInvokeMetaCall exampleWorld object 1 Call.InvokeMetaMethod 1 65535
          args connectionType) ∧
    toUShort (exampleWorld.metaObject 1).propertyOffset = 1 ∧
    toUShort (0 - (exampleWorld.metaObject 1).propertyOffset) = 65535 ∧
    (∀ (object : Option QObject) (args : List VoidPtr) (connectionType : Nat),
      qskInvokeMetaPropertyWrite exampleWorld object (some 1) 0 args
          connectionType =
        qskInvokeMetaCall exampleWorld object 1 Call.WriteProperty 1 65535
          (args.drop 1) connectionType) := by
  refine ⟨by decide, by decide, by decide, by decide, by decide, by decide,
    by decide, ?_, by decide, by decide, ?_⟩
  · intro object args connectionType
    rfl
  · intro object args connectionType
    rfl

/-- C20, the failing case: for the descriptor of `QObject`, the property
`objectName` is found at index `0` and has the notify signal at method
index `2`, yet `qskNotifySignal` returns the invalid method; and for a
name that no property has, the index is `-1` and `qskNotifySignal` looks
up the property at index `-1`. -/
theorem notifySignal_index_test :
    (qobjectWorld.metaObject 1).indexOfProperty "objectName" = 0 ∧
    ((qobjectWorld.metaObject 1).property 0).notifySignal qobjectWorld
      = (qobjectWorld.metaObject 1).method 2 ∧
    (qskNotifySignal qobjectWorld (some 1) (some "objectName")).1 = {} ∧
    (qskNotifySignal qobjectWorld (some 1) (some "objectName")).1
      ≠ ((qobjectWorld.metaObject 1).property 0).notifySignal qobjectWorld ∧
    (qobjectWorld.metaObject 1).indexOfProperty "missing" = -1 ∧
    (qskNotifySignal qobjectWorld (some 1) (some "missing")).2 = [-1] := by
  decide

/-! ## Size hints of items -/

/-- The part of C21 that holds: for an item that is no `QskControl`, a
constraint with negative width and height and the selectors `MinimumSize`,
`PreferredSize` and `MaximumSize`, the index lies inside the table of three
names and `qskEffectiveSizeHint` returns a size. -/
theorem sizeHint_index_in_table (item : QQuickItem) (whichHint : Qt.SizeHint)
    (constraint : QSizeF)
    (hcontrol : item.control = none)
    (hwidth : constraint.width < 0) (hheight : constraint.height < 0)
    (hwhich : whichHint = Qt.SizeHint.MinimumSize ∨
      whichHint = Qt.SizeHint.PreferredSize ∨
      whichHint = Qt.SizeHint.MaximumSize) :
    whichHint.toNat < properties.length ∧
    ∃ hint, qskEffectiveSizeHint (some item) whichHint constraint = some hint := by
  have hc : ¬ (constraint.width ≥ 0 ∨ constraint.height ≥ 0) := by
    intro h
    rcases h with h | h
    · exact absurd hwidth (not_lt.mpr h)
    · exact absurd hheight (not_lt.mpr h)
  rcases hwhich with h | h | h <;> subst h <;>
    refine ⟨by decide, ?_⟩ <;>
    simp [qskEffectiveSizeHint, hcontrol, hc, properties, Qt.SizeHint.toNat]

/-- C21, the failing case: for an item that is no `QskControl`, the default
constraint, of width and height `-1`, and the selector `MinimumDescent`,
the index into the table of three names is `3`: the read
`properties[ whichHint ]` is outside the table. -/
theorem sizeHint_minimumDescent_outside_table :
    plainItem.control = none ∧
    (({} : QSizeF).width < 0 ∧ ({} : QSizeF).height < 0) ∧
    Qt.SizeHint.MinimumDescent.toNat = 3 ∧
    properties.length = 3 ∧
    properties[Qt.SizeHint.MinimumDescent.toNat]? = none ∧
    qskEffectiveSizeHint (some plainItem) Qt.SizeHint.MinimumDescent {}
      = none := by
  refine ⟨rfl, ⟨by decide, by decide⟩, rfl, rfl, rfl, by decide⟩

/-! ## Destroyed targets -/

/-- For a target that exists for the whole call, the dispatcher with a
lifetime does what the dispatcher without one does. -/
theorem qskInvokeMetaCallTracked_alive (w : World) (object : Option QObject)
    (metaObject : Nat) (call : Call) (offset index : Nat)
    (args : List VoidPtr) (connectionType : Nat) :
    qskInvokeMetaCallTracked w object (fun _ => true) metaObject call offset
        index args connectionType =
      some (qskInvokeMetaCall w object metaObject call offset index args
        connectionType) := by
  unfold qskInvokeMetaCallTracked qskInvokeMetaCall
  simp only []
  generalize connectionType &&& 3 = t
  obtain _ | _ | _ | _ | t := t
  · cases object with
    | none => simp [QPointer.data, Qt.AutoConnection, Qt.DirectConnection]
    | some o =>
      by_cases ht : o.thread = w.currentThread
      · simp [QPointer.data, Qt.AutoConnection, Qt.DirectConnection, ht]
      · simp [QPointer.data, Qt.AutoConnection, Qt.QueuedConnection, ht]
        split
        · split <;> rfl
        · rfl
  · cases object <;> simp [QPointer.data, Qt.AutoConnection]
  · cases object <;> simp [QPointer.data, Qt.AutoConnection]
    split
    · split <;> rfl
    · rfl
  · cases object <;> simp [QPointer.data, Qt.AutoConnection]
    split <;> rfl
  · cases object <;> simp [QPointer.data, Qt.AutoConnection]

/-- For a target that exists for the whole call, `invoke` with a lifetime
does what `invoke` without one does. -/
theorem invokeTracked_alive (w : World) (a : QskMetaInvokable)
    (object : Option QObject) (args : List VoidPtr) (connectionType : Nat) :
    a.invokeTracked w object (fun _ => true) args connectionType =
      some (a.invoke w object args connectionType) := by
  unfold QskMetaInvokable.invokeTracked QskMetaInvokable.invoke
  split
  · rfl
  · split
    · unfold qskInvokeMetaMethodTracked qskInvokeMetaMethod
      split
      · rfl
      · split
        · exact qskInvokeMetaCallTracked_alive _ _ _ _ _ _ _ _
        · rfl
    · unfold qskInvokeMetaPropertyWriteTracked qskInvokeMetaPropertyWrite
      split
      · rfl
      · split
        · exact qskInvokeMetaCallTracked_alive _ _ _ _ _ _ _ _
        · rfl
    · split <;> rfl
    · rfl

/-- The dispatcher makes no call and posts nothing when the target is null,
or exists where the dispatcher reads it through the raw pointer and is
destroyed when the branch tests the guarded pointer. -/
theorem qskInvokeMetaCallTracked_dead (w : World) (object : Option QObject)
    (alive : Nat → Bool) (metaObject : Nat) (call : Call)
    (offset index : Nat) (args : List VoidPtr) (connectionType : Nat)
    (hdead : object = none ∨
      (alive 0 = true ∧
        (connectionType &&& 0x3 = Qt.AutoConnection → alive 1 = true) ∧
        alive 2 = false)) :
    qskInvokeMetaCallTracked w object alive metaObject call offset index args
      connectionType = some [] := by
  unfold qskInvokeMetaCallTracked
  simp only []
  rcases hdead with h | ⟨h0, h1, h2⟩
  · subst h
    generalize connectionType &&& 3 = t
    obtain _ | _ | _ | _ | t := t <;>
      simp [QPointer.data, Qt.AutoConnection, Qt.DirectConnection]
  · cases object with
    | none =>
      generalize connectionType &&& 3 = t
      obtain _ | _ | _ | _ | t := t <;>
        simp [QPointer.data, Qt.AutoConnection, Qt.DirectConnection]
    | some o =>
      generalize ht : connectionType &&& 3 = t at h1
      obtain _ | _ | _ | _ | t := t
      · have h1' : alive 1 = true := h1 rfl
        by_cases hthread : o.thread = w.currentThread <;>
          simp [QPointer.data, Qt.AutoConnection, Qt.DirectConnection,
            Qt.QueuedConnection, h0, h1', h2, hthread]
      · simp [QPointer.data, Qt.AutoConnection, h0, h2]
      · simp [QPointer.data, Qt.AutoConnection, h0, h2]
      · simp [QPointer.data, Qt.AutoConnection, h0, h2]
      · simp [QPointer.data, Qt.AutoConnection, h0, h2]

/-- C3, amended: for a Member or Property identity and every connection
policy, `invoke` is skipped, with no call of the member mechanism and no
envelope posted, when the target is null, or when it is destroyed after
the dispatcher has set up its guarded pointer - under Auto, after the
dispatcher has also read the thread of the target - and before the branch
tests that pointer. -/
theorem invoke_dead_target_skipped (w : World) (a : QskMetaInvokable)
    (object : Option QObject) (alive : Nat → Bool) (args : List VoidPtr)
    (connectionType : Nat)
    (hk : a.m_type = InvokableType.MetaMethod ∨
      a.m_type = InvokableType.MetaProperty)
    (hdead : object = none ∨
      (alive 0 = true ∧
        (connectionType &&& 0x3 = Qt.AutoConnection → alive 1 = true) ∧
        alive 2 = false)) :
    a.invokeTracked w object alive args connectionType = some [] := by
  unfold QskMetaInvokable.invokeTracked
  split
  · rfl
  · rcases hk with hk | hk <;> rw [hk] <;> simp only
    · unfold qskInvokeMetaMethodTracked
      split
      · rfl
      · split
        · exact qskInvokeMetaCallTracked_dead _ _ _ _ _ _ _ _ _ hdead
        · rfl
    · unfold qskInvokeMetaPropertyWriteTracked
      split
      · rfl
      · split
        · exact qskInvokeMetaCallTracked_dead _ _ _ _ _ _ _ _ _ hdead
        · rfl

/-- Witness of C3: under Auto, a target of another thread that exists at
program points `0` and `1` and is destroyed before the branch test. -/
theorem invoke_dead_target_skipped_witness :
    (ownMethodIdentity.m_type = InvokableType.MetaMethod ∨
      ownMethodIdentity.m_type = InvokableType.MetaProperty) ∧
    ((some (QObject.mk 5 1)) = none ∨
      ((fun k : Nat => decide (k < 2)) 0 = true ∧
        (Qt.AutoConnection &&& 0x3 = Qt.AutoConnection →
          (fun k : Nat => decide (k < 2)) 1 = true) ∧
        (fun k : Nat => decide (k < 2)) 2 = false)) ∧
    ownMethodIdentity.invokeTracked exampleWorld (some ⟨5, 1⟩)
      (fun k => decide (k < 2))
      [VoidPtr.null, VoidPtr.caller 7, VoidPtr.caller 8] Qt.AutoConnection
      = some [] :=
  ⟨Or.inl rfl, Or.inr ⟨rfl, fun _ => rfl, rfl⟩,
    invoke_dead_target_skipped exampleWorld ownMethodIdentity (some ⟨5, 1⟩)
      (fun k => decide (k < 2))
      [VoidPtr.null, VoidPtr.caller 7, VoidPtr.caller 8] Qt.AutoConnection
      (Or.inl rfl) (Or.inr ⟨rfl, fun _ => rfl, rfl⟩)⟩

/-- Counterexample to C3 as stated.  A target that is already destroyed when
`invoke` is called is not skipped: the dispatcher sets up its guarded
pointer from the raw pointer, a read of the destroyed object, and the
behaviour is undefined.  And under Auto a target destroyed right after the
guarded pointer is set up is read through the raw pointer for its thread,
where the Direct policy skips the same target. -/
theorem invoke_dead_target_counterexample :
    (ownMethodIdentity.isNull exampleWorld = false ∧
      ownMethodIdentity.invokeTracked exampleWorld (some ⟨5, 0⟩)
        (fun _ => false)
        [VoidPtr.null, VoidPtr.caller 7, VoidPtr.caller 8]
        Qt.DirectConnection = none) ∧
    (ownMethodIdentity.invokeTracked exampleWorld (some ⟨5, 0⟩)
        (fun k => decide (k = 0))
        [VoidPtr.null, VoidPtr.caller 7, VoidPtr.caller 8]
        Qt.AutoConnection = none ∧
      ownMethodIdentity.invokeTracked exampleWorld (some ⟨5, 0⟩)
        (fun k => decide (k = 0))
        [VoidPtr.null, VoidPtr.caller 7, VoidPtr.caller 8]
        Qt.DirectConnection = some []) := by
  decide

end Qsk
